import Mathlib

/-!
Shallow embedding of `lib/sqlalchemy/dialects/mysql/reflection.py`:
the parser for MySQL `SHOW CREATE TABLE` output (`MySQLTableDefinitionParser`),
the synthetic-statement formatter `_describe_to_create`, and the supporting
line grammars, together with theorems settling the specification claims.

Python regular expressions are embedded as hand-written scanners over
`List Char` that follow the source patterns construct by construct.  Optional
clause groups commit on a token-boundary match, mirroring the effective
behaviour of the backtracking engine on line-shaped input.
-/

namespace MySQLRefl

abbrev Chars := List Char

/-- Single-quote character (avoids quote-escape literals). -/
def sq : Char := Char.ofNat 39

/-- Backtick character, MySQL's identifier quote. -/
def bq : Char := Char.ofNat 96

/-- `\w` of `re` (with re.UNICODE): alphanumeric or underscore. -/
def isWordChar (c : Char) : Bool := c.isAlphanum || c = '_'

/-- `\s` of `re`: whitespace. -/
def isSpaceChar (c : Char) : Bool :=
  c = ' ' || c = '\t' || c = '\n' || c = '\r' || c = Char.ofNat 11 || c = Char.ofNat 12

/-- `\S` of `re`. -/
def isNonSpace (c : Char) : Bool := !(isSpaceChar c)

/-- Case-insensitive character comparison (re.I). -/
def charCI (a b : Char) : Bool := a.toLower = b.toLower

/-- `p` is a (case-sensitive) prefix of `s`. -/
def hasPre : Chars → Chars → Bool
  | [], _ => true
  | _ :: _, [] => false
  | p :: ps, c :: cs => p = c && hasPre ps cs

/-- Match the literal `pat` case-insensitively at the head of `l`,
returning the rest on success. -/
def strCI : Chars → Chars → Option Chars
  | [], l => some l
  | _ :: _, [] => none
  | p :: ps, c :: cs => if charCI p c then strCI ps cs else none

/-- Match the literal `pat` case-sensitively at the head of `l`. -/
def strCS : Chars → Chars → Option Chars
  | [], l => some l
  | _ :: _, [] => none
  | p :: ps, c :: cs => if p = c then strCS ps cs else none

/-- Maximal run of characters satisfying `p` (possibly empty). -/
def takeWhileCh (p : Char → Bool) : Chars → Chars × Chars
  | [] => ([], [])
  | c :: cs =>
    if p c then
      let r := takeWhileCh p cs
      (c :: r.1, r.2)
    else ([], c :: cs)

/-- One-or-more characters satisfying `p` (greedy), or `none`. -/
def takeWhile1 (p : Char → Bool) (l : Chars) : Option (Chars × Chars) :=
  let r := takeWhileCh p l
  if r.1 = [] then none else some r

/-- ` +`: one or more space characters (greedy). -/
def sp1 (l : Chars) : Option Chars :=
  match l with
  | c :: cs => if c = ' ' then some (takeWhileCh (fun c => c = ' ') cs).2 else none
  | [] => none

/-- Expect a single given character. -/
def chLit (x : Char) : Chars → Option Chars
  | c :: cs => if c = x then some cs else none
  | [] => none

/-- Word boundary used when committing an optional keyword clause:
the keyword must not be followed by a further word character. -/
def wordBdry (l : Chars) : Bool :=
  match l with
  | [] => true
  | c :: _ => !(isWordChar c)

/-- All-lowercase copy of a string (Python `str.lower` on ASCII directives). -/
def lowerStr (s : String) : String := String.mk (s.toList.map Char.toLower)

/-- Python `needle in hay` substring containment. -/
def containsSeq (needle : Chars) : Chars → Bool
  | [] => hasPre needle []
  | c :: cs => hasPre needle (c :: cs) || containsSeq needle cs

/-- Modelled from the spec: the identifier-quoting convention object
(`self.preparer`), an external collaborator supplying the initial quote,
final quote, the escaped form of the final quote, identifier escape/unescape,
`quote_identifier`, and `unformat_identifiers`. -/
structure Preparer where
  initial_quote : Char
  final_quote : Char
  escFq : Chars
  escape_identifier : String → String
  unescape_identifier : String → String
  unformat_identifiers : String → List String

/-- Replace every occurrence of character `x` by the two characters `x x`. -/
def doubleCh (x : Char) : Chars → Chars
  | [] => []
  | c :: cs => if c = x then c :: c :: doubleCh x cs else c :: doubleCh x cs

/-- Python `str.replace` for a two-character pattern: left to right,
non-overlapping. -/
def replace2 (p1 p2 : Char) (r : Chars) : Chars → Chars
  | [] => []
  | [c] => [c]
  | c :: c' :: cs =>
    if c = p1 && c' = p2 then r ++ replace2 p1 p2 r cs
    else c :: replace2 p1 p2 r (c' :: cs)

/-- The unescaping `value.replace("\\\\", "\\").replace("''", "'")` shared
by the comment cleanup paths. -/
def unescapeValue (s : String) : String :=
  String.mk (replace2 sq sq [sq] (replace2 '\\' '\\' ['\\'] s.toList))

/-- Replace every occurrence of `x x` by a single `x`. -/
def undoubleCh (x : Char) : Chars → Chars
  | [] => []
  | [c] => [c]
  | c :: c' :: cs =>
    if c = x && c' = x then c :: undoubleCh x cs
    else c :: undoubleCh x (c' :: cs)

/-- Split a possibly schema-qualified quoted identifier (for example
``xq a xq . xq b xq`` with quote character `xq`) into unescaped parts. -/
def unformatChars (xq : Char) : Chars → List Chars → Chars → List Chars
  | [], acc, cur => acc ++ [cur]
  | [c], acc, cur => if c = xq then acc ++ [cur] else acc ++ [cur ++ [c]]
  | c :: c' :: cs', acc, cur =>
    if c = xq && c' = xq then unformatChars xq cs' acc (cur ++ [xq])
    else if c = xq then unformatChars xq (c' :: cs') acc cur
    else if c = '.' then unformatChars xq (c' :: cs') (acc ++ [cur]) []
    else unformatChars xq (c' :: cs') acc (cur ++ [c])

/-- Modelled from the spec: the MySQL identifier preparer (backtick quoting,
backtick escaped by doubling). -/
def mysqlPreparer : Preparer where
  initial_quote := bq
  final_quote := bq
  escFq := [bq, bq]
  escape_identifier := fun s => String.mk (doubleCh bq s.toList)
  unescape_identifier := fun s => String.mk (undoubleCh bq s.toList)
  unformat_identifiers := fun s => (unformatChars bq s.toList [] []).map String.mk

/-- `preparer.quote_identifier`: initial quote, escaped name, final quote. -/
def quoteIdentifier (P : Preparer) (s : String) : String :=
  String.mk ([P.initial_quote] ++ (P.escape_identifier s).toList ++ [P.final_quote])

/-- Modelled from the spec: a resolved type descriptor from the dialect's
`ischema_names` registry, with the closed family predicates the column
builder queries (`issubclass` checks against `Integer`,
`DATETIME`/`TIME`/`TIMESTAMP` and `ENUM`/`SET`, whose classes live outside
the parser source). -/
structure TypeDesc where
  tname : String
  isInteger : Bool := false
  isEnum : Bool := false
  isSet : Bool := false
  isDatetimeFsp : Bool := false
deriving DecidableEq, Repr

/-- `sqltypes.NullType`, the fallback for an unrecognized type name. -/
def NullType : TypeDesc := { tname := "NULLTYPE" }

/-- Modelled from the spec: the dialect's type registry
(`self.dialect.ischema_names`), an external collaborator. -/
structure Registry where
  ischema_names : String → Option TypeDesc

/-- Resolution with the `KeyError → NullType` fallback of `_parse_column`. -/
def resolveType (reg : Registry) (t : String) : TypeDesc :=
  (reg.ischema_names t).getD NullType

/-- A positional type argument: `int(11)` yields integers,
`enum('a','b')` yields (still-quoted) string literals. -/
inductive TypeArg where
  | int (n : Nat)
  | str (s : String)
deriving DecidableEq, Repr

/-- The constructed column type (`col_type(*type_args, **type_kw)`). -/
structure TypeInstance where
  desc : TypeDesc
  args : List TypeArg
  fsp : Option TypeArg := none
  unsigned : Bool := false
  zerofill : Bool := false
  charset : Option String := none
  collate : Option String := none
  retrieve_as_bitwise : Bool := false
deriving DecidableEq, Repr

/-- The computed-column descriptor (`dict(sqltext=...)` with optional
`persisted`). -/
structure Computed where
  sqltext : String
  persisted : Option Bool := none
deriving DecidableEq, Repr

/-- The `col_d` dictionary appended to `state.columns`.  `autoincrement`
is three-valued: `none` models the key being absent from `col_kw`. -/
structure ColumnSpec where
  name : String
  type : TypeInstance
  default : Option String
  comment : Option String
  nullable : Bool
  autoincrement : Option Bool := none
  computed : Option Computed := none
deriving DecidableEq, Repr

/-- A `(columnName, optional prefix-length, optional ASC/DESC)` triple from
`_parse_keyexprs`. -/
structure KeyExpr where
  col : String
  length : Option Nat := none
  direction : Option String := none
deriving DecidableEq, Repr

/-- The processed groupdict of `_re_key`. -/
structure KeySpec where
  ktype : Option String := none
  kname : Option String := none
  using_pre : Option String := none
  columns : List KeyExpr := []
  using_post : Option String := none
  keyblock : Option String := none
  kparser : Option String := none
  kcomment : Option String := none
  version_sql : Option String := none
deriving DecidableEq, Repr

/-- The processed groupdict of `_re_fk_constraint`. -/
structure FkSpec where
  fname : String
  local_cols : List String := []
  table : List String := []
  foreign_cols : List String := []
  fmatch : Option String := none
  ondelete : Option String := none
  onupdate : Option String := none
deriving DecidableEq, Repr

/-- The groupdict of `_re_ck_constraint`. -/
structure CkSpec where
  cname : String
  sqltext : String
deriving DecidableEq, Repr

/-- `ReflectedState`: the accumulating result of one `parse` run.
`warnings` is modelled from the spec: `util.warn` (outside the parser
source) is a process-wide warning sink; it is embedded as an ordered list
of emitted messages. -/
structure ReflectedState where
  columns : List ColumnSpec := []
  table_options : List (String × String) := []
  table_name : Option String := none
  keys : List KeySpec := []
  fk_constraints : List FkSpec := []
  ck_constraints : List CkSpec := []
  charset : Option String := none
  warnings : List String := []
deriving DecidableEq, Repr

/-- Approximation of Python `repr` for the `%r` warning formats: the text
surrounded by single quotes (escaping of exotic characters is immaterial
to the claims, which only need the offending line quoted verbatim). -/
def pyRepr (s : String) : String := String.mk (sq :: s.toList ++ [sq])

/-- The identifier group `(?:esc_fq|[^fq])+` (maximal): the escaped-final-quote
sequence is special-cased into the character class, and the raw matched text
(escapes still doubled) is captured.  `esc` is the two-character doubled-quote
sequence of the quoting convention. -/
def identChars (fq : Char) (esc : Chars) : Chars → Chars × Chars
  | [] => ([], [])
  | [c] => if c = fq then ([], [c]) else ([c], [])
  | c :: c' :: cs =>
    if esc = [c, c'] then
      let r := identChars fq esc cs
      (c :: c' :: r.1, r.2)
    else if c = fq then ([], c :: c' :: cs)
    else
      let r := identChars fq esc (c' :: cs)
      (c :: r.1, r.2)

/-- Scan the body of `'(?:''|[^'])*'` starting after the opening quote:
doubled quotes are content, a lone quote closes.  Returns the raw body
(doubling preserved) and the rest after the closing quote. -/
def qContent : Chars → Option (Chars × Chars)
  | [] => none
  | [c] => if c = sq then some ([], []) else none
  | c :: c' :: cs =>
    if c = sq && c' = sq then (qContent cs).map (fun r => (c :: c' :: r.1, r.2))
    else if c = sq then some ([], c' :: cs)
    else (qContent (c' :: cs)).map (fun r => (c :: r.1, r.2))

/-- A whole quoted chunk `'(?:''|[^'])*'` including its quotes. -/
def qChunk (l : Chars) : Option (Chars × Chars) :=
  match l with
  | c :: cs => if c = sq then (qContent cs).map (fun r => (sq :: r.1 ++ [sq], r.2)) else none
  | [] => none

/-- `(?:'(?:''|[^'])*',?)+`: one or more quoted string literals, each with an
optional trailing comma; the raw consumed text is captured.  Fuel-driven
(each unit consumes at least two characters). -/
def quotedListF : Nat → Chars → Option (Chars × Chars)
  | 0, _ => none
  | f + 1, l =>
    match qChunk l with
    | none => none
    | some (ch, rest) =>
      let unit_rest : Chars × Chars :=
        match rest with
        | ',' :: cs => (ch ++ [','], cs)
        | _ => (ch, rest)
      match unit_rest.2 with
      | c :: _ =>
        if c = sq then
          match quotedListF f unit_rest.2 with
          | some (more, r2) => some (unit_rest.1 ++ more, r2)
          | none => some unit_rest
        else some unit_rest
      | [] => some unit_rest

/-- The full column-pattern argument group
`(?:\d+|\d+,\d+|(?:'(?:''|[^'])*',?)+)` followed by the closing paren;
input starts after the opening paren. -/
def colArg (l : Chars) : Option (Chars × Chars) :=
  match takeWhile1 Char.isDigit l with
  | some (d1, r) =>
    (match r with
     | ')' :: cs => some (d1, cs)
     | ',' :: r2 =>
       (match takeWhile1 Char.isDigit r2 with
        | some (d2, r3) =>
          (match r3 with
           | ')' :: cs => some (d1 ++ [','] ++ d2, cs)
           | _ => none)
        | none => none)
     | _ => none)
  | none =>
    match quotedListF l.length l with
    | some (a, r) =>
      (match r with
       | ')' :: cs => some (a, cs)
       | _ => none)
    | none => none

/-- The loose column-pattern argument group
`(?:\d+|\d+,\d+|'(?:''|[^'])+')` followed by the closing paren. -/
def looseArg (l : Chars) : Option (Chars × Chars) :=
  match takeWhile1 Char.isDigit l with
  | some (d1, r) =>
    (match r with
     | ')' :: cs => some (d1, cs)
     | ',' :: r2 =>
       (match takeWhile1 Char.isDigit r2 with
        | some (d2, r3) =>
          (match r3 with
           | ')' :: cs => some (d1 ++ [','] ++ d2, cs)
           | _ => none)
        | none => none)
     | _ => none)
  | none =>
    match qChunk l with
    | some (ch, r) =>
      if 3 ≤ ch.length then
        (match r with
         | ')' :: cs => some (ch, cs)
         | _ => none)
      else none
    | none => none

/-- The groupdict of the column patterns `_re_column` / `_re_column_loose`. -/
structure ColMatch where
  name : String
  coltype : String
  arg : Option String := none
  unsigned : Option String := none
  zerofill : Option String := none
  charset : Option String := none
  collate : Option String := none
  notnull : Option String := none
  default : Option String := none
  generated : Option String := none
  persistence : Option String := none
  autoincr : Option String := none
  comment : Option String := none
  colfmt : Option String := none
  storage : Option String := none
  extra : Option String := none
deriving DecidableEq, Repr

/-- An optional clause `(?: +<body>)?`: greedy spaces then the body; the
clause is skipped (input restored) when either fails. -/
def optcl (l : Chars) (f : Chars → Option (String × Chars)) : Option String × Chars :=
  match sp1 l with
  | none => (none, l)
  | some r =>
    match f r with
    | none => (none, l)
    | some (a, r') => (some a, r')

/-- A bare keyword clause body (such as `UNSIGNED`), case-insensitive,
committed only at a word boundary; captures the original text. -/
def fKw (kw : String) (l : Chars) : Option (String × Chars) :=
  match strCI kw.toList l with
  | some r => if wordBdry r then some (String.mk (l.take kw.length), r) else none
  | none => none

/-- A `KEYWORD +(\w+)` clause body (such as `COLLATE utf8_bin`);
captures the word value. -/
def fKwWord (kw : String) (l : Chars) : Option (String × Chars) :=
  match strCI kw.toList l with
  | some r =>
    (match sp1 r with
     | some r2 =>
       (match takeWhile1 isWordChar r2 with
        | some (w, r3) => some (String.mk w, r3)
        | none => none)
     | none => none)
  | none => none

/-- The `NULL` arm of the notnull group. -/
def fNull (l : Chars) : Option (String × Chars) :=
  match strCI "NULL".toList l with
  | some r => if wordBdry r then some (String.mk (l.take 4), r) else none
  | none => none

/-- The notnull group `((?:NOT )?NULL)`: `NOT NULL` preferred, captured
text preserves the original case. -/
def fNotNull (l : Chars) : Option (String × Chars) :=
  match strCI "NOT NULL".toList l with
  | some r => if wordBdry r then some (String.mk (l.take 8), r) else fNull l
  | none => fNull l

/-- The character class `[\w\.\(\)]` of bare default values. -/
def defaultChar (c : Char) : Bool := isWordChar c || c = '.' || c = '(' || c = ')'

/-- Boundary at which the bare `NULL` default alternative is committed
(end of line, next clause, or trailing comma). -/
def defaultBdry (l : Chars) : Bool :=
  match l with
  | [] => true
  | c :: _ => c = ' ' || c = ','

/-- The optional ` +ON UPDATE [\w\.\(\)]+` tail of a bare default value;
returns the raw consumed text. -/
def fOnUpdate (l : Chars) : Option (Chars × Chars) :=
  match l with
  | ' ' :: cs =>
    let r := takeWhileCh (fun c => c = ' ') cs
    (match strCI "ON UPDATE ".toList r.2 with
     | some r2 =>
       (match takeWhile1 defaultChar r2 with
        | some (w, r3) => some (' ' :: r.1 ++ r.2.take 10 ++ w, r3)
        | none => none)
     | none => none)
  | _ => none

/-- Arms two and three of the default-value alternation: a quoted string,
else a bare `[\w\.\(\)]+` token with optional `ON UPDATE` tail. -/
def fDefaultVal2 (l : Chars) : Option (String × Chars) :=
  match qChunk l with
  | some (ch, r) => some (String.mk ch, r)
  | none =>
    match takeWhile1 defaultChar l with
    | some (w, r) =>
      (match fOnUpdate r with
       | some (ex, r2) => some (String.mk (w ++ ex), r2)
       | none => some (String.mk w, r))
    | none => none

/-- The default-value alternation `(?:NULL|'(?:''|[^'])*'|[\w\.\(\)]+
(?: +ON UPDATE [\w\.\(\)]+)?)`; the `NULL` arm is committed only at a
clause boundary, mirroring the engine's backtracking. -/
def fDefaultVal (l : Chars) : Option (String × Chars) :=
  match strCI "NULL".toList l with
  | some r => if defaultBdry r then some (String.mk (l.take 4), r) else fDefaultVal2 l
  | none => fDefaultVal2 l

/-- The `DEFAULT +<value>` clause body. -/
def fDefault (l : Chars) : Option (String × Chars) :=
  match strCI "DEFAULT".toList l with
  | some r =>
    (match sp1 r with
     | some r2 => fDefaultVal r2
     | none => none)
  | none => none

/-- The `COMMENT +'((?:''|[^'])*)'` clause body; captures the body without
the surrounding quotes. -/
def fComment (l : Chars) : Option (String × Chars) :=
  match strCI "COMMENT".toList l with
  | some r =>
    (match sp1 r with
     | some r2 =>
       (match r2 with
        | c :: cs => if c = sq then (qContent cs).map (fun p => (String.mk p.1, p.2)) else none
        | [] => none)
     | none => none)
  | none => none

/-- Split at the last occurrence of `x`: `some (before, after)`. -/
def lastSplitAt (x : Char) : Chars → Option (Chars × Chars)
  | [] => none
  | c :: cs =>
    match lastSplitAt x cs with
    | some (a, b) => some (c :: a, b)
    | none => if c = x then some ([], cs) else none

/-- `\(.*\)` greedy: from an opening paren to the last closing paren. -/
def genParens (l : Chars) : Option (Chars × Chars) :=
  match l with
  | '(' :: cs =>
    (match lastSplitAt ')' cs with
     | some (inner, rest) => some ('(' :: inner ++ [')'], rest)
     | none => none)
  | _ => none

/-- The computed-column clause body
`(?:GENERATED ALWAYS)? ?AS +(?P<generated>\(.*\))? ?(?P<persistence>VIRTUAL|STORED)?`
(after the leading spaces); returns the generated and persistence captures. -/
def fGenClause (l : Chars) : Option ((Option String × Option String) × Chars) :=
  let l1 := match strCI "GENERATED ALWAYS".toList l with
            | some r => r
            | none => l
  let l2 := match l1 with
            | ' ' :: cs => cs
            | _ => l1
  match strCI "AS".toList l2 with
  | none => none
  | some r =>
    match sp1 r with
    | none => none
    | some r2 =>
      let gen_r3 : Option String × Chars :=
        match genParens r2 with
        | some (g, rr) => (some (String.mk g), rr)
        | none => (none, r2)
      let r4 := match gen_r3.2 with
                | ' ' :: cs => cs
                | _ => gen_r3.2
      let pers_r5 : Option String × Chars :=
        match strCI "VIRTUAL".toList r4 with
        | some rr => if wordBdry rr then (some (String.mk (r4.take 7)), rr) else (none, r4)
        | none =>
          match strCI "STORED".toList r4 with
          | some rr => if wordBdry rr then (some (String.mk (r4.take 6)), rr) else (none, r4)
          | none => (none, r4)
      some ((gen_r3.1, pers_r5.1), pers_r5.2)

/-- The clause cascade of `_re_column` from the computed-column clause to
the `,?$` anchor, building the groupdict. -/
def colFinish (nm ty : Chars) (argv unsd zf cset coll nnv dfv : Option String)
    (l : Chars) : Option ColMatch :=
  let genp : (Option String × Option String) × Chars :=
    match sp1 l with
    | some r =>
      (match fGenClause r with
       | some (gp, r') => (gp, r')
       | none => ((none, none), l))
    | none => ((none, none), l)
  let ai := optcl genp.2 (fKw "AUTO_INCREMENT")
  let cmt := optcl ai.2 fComment
  let cf := optcl cmt.2 (fKwWord "COLUMN_FORMAT")
  let stg := optcl cf.2 (fKwWord "STORAGE")
  let ext : Option String × Chars :=
    match sp1 stg.2 with
    | some r => (some (String.mk r), [])
    | none => (none, stg.2)
  let fin : Bool := ext.2 = [] || ext.2 = [',']
  if fin then
    some { name := String.mk nm, coltype := String.mk ty, arg := argv,
           unsigned := unsd, zerofill := zf, charset := cset, collate := coll,
           notnull := nnv, default := dfv, generated := genp.1.1,
           persistence := genp.1.2, autoincr := ai.1, comment := cmt.1,
           colfmt := cf.1, storage := stg.1, extra := ext.1 }
  else none

/-- The `DEFAULT` clause stage of `_re_column`. -/
def colDefaultStage (nm ty : Chars) (argv unsd zf cset coll nnv : Option String)
    (l : Chars) : Option ColMatch :=
  let dflt := optcl l fDefault
  colFinish nm ty argv unsd zf cset coll nnv dflt.1 dflt.2

/-- The `(NOT )?NULL` clause stage of `_re_column`. -/
def colNotNullStage (nm ty : Chars) (argv unsd zf cset coll : Option String)
    (l : Chars) : Option ColMatch :=
  let nn := optcl l fNotNull
  colDefaultStage nm ty argv unsd zf cset coll nn.1 nn.2

/-- The clause cascade of `_re_column` after the quoted name and the bare
type word, clause by clause in source order; `,?$` anchors the end. -/
def matchColumnTail (nm ty : Chars) (l6 : Chars) : Option ColMatch :=
  let arg_l7 : Option String × Chars :=
    match l6 with
    | c :: cs =>
      if c = '(' then
        match colArg cs with
        | some (a, r) => (some (String.mk a), r)
        | none => (none, l6)
      else (none, l6)
    | [] => (none, l6)
  let unsd := optcl arg_l7.2 (fKw "UNSIGNED")
  let zf := optcl unsd.2 (fKw "ZEROFILL")
  let cset := optcl zf.2 (fKwWord "CHARACTER SET")
  let coll := optcl cset.2 (fKwWord "COLLATE")
  colNotNullStage nm ty arg_l7.1 unsd.1 zf.1 cset.1 coll.1 coll.2

/-- `_re_column`: two spaces, quoted name, bare type keyword, then the
optional clause cascade. -/
def matchColumnFull (P : Preparer) (l : Chars) : Option ColMatch :=
  match strCS "  ".toList l with
  | none => none
  | some l1 =>
  match chLit P.initial_quote l1 with
  | none => none
  | some l2 =>
  let nm_l3 := identChars P.final_quote P.escFq l2
  if nm_l3.1 = [] then none else
  match chLit P.final_quote nm_l3.2 with
  | none => none
  | some l4 =>
  match sp1 l4 with
  | none => none
  | some l5 =>
  match takeWhile1 isWordChar l5 with
  | none => none
  | some (ty, l6) => matchColumnTail nm_l3.1 ty l6

/-- `_re_column_loose`: the fallback grammar; after name, type, and optional
argument, `.*?((?:NOT )NULL)?` captures `NOT NULL` only when it stands at
the current position (the lazy star matches empty and every group after it
is optional). -/
def matchColumnLoose (P : Preparer) (l : Chars) : Option ColMatch :=
  match strCS "  ".toList l with
  | none => none
  | some l1 =>
  match chLit P.initial_quote l1 with
  | none => none
  | some l2 =>
  let nm_l3 := identChars P.final_quote P.escFq l2
  if nm_l3.1 = [] then none else
  match chLit P.final_quote nm_l3.2 with
  | none => none
  | some l4 =>
  match sp1 l4 with
  | none => none
  | some l5 =>
  match takeWhile1 isWordChar l5 with
  | none => none
  | some (ty, l6) =>
  let arg_l7 : Option String × Chars :=
    match l6 with
    | '(' :: cs =>
      (match looseArg cs with
       | some (a, r) => (some (String.mk a), r)
       | none => (none, l6))
    | _ => (none, l6)
  let nn : Option String :=
    match strCI "NOT NULL".toList arg_l7.2 with
    | some _ => some (String.mk (arg_l7.2.take 8))
    | none => none
  some { name := String.mk nm_l3.1, coltype := String.mk ty, arg := arg_l7.1, notnull := nn }

/-- `_re_csv_str.findall`: all quoted chunks in the raw argument text
(quotes kept); an unclosed quote is skipped one character at a time. -/
def csvStrFindall : Nat → Chars → List String
  | 0, _ => []
  | f + 1, l =>
    match l with
    | [] => []
    | c :: cs =>
      if c = sq then
        match qContent cs with
        | some (body, rest) => String.mk (sq :: body ++ [sq]) :: csvStrFindall f rest
        | none => csvStrFindall f cs
      else csvStrFindall f cs

/-- `_re_csv_int.findall` composed with `int`: every maximal digit run. -/
def csvIntAux : Chars → Nat → Bool → List Nat
  | [], acc, inDigit => if inDigit then [acc] else []
  | c :: cs, acc, inDigit =>
    if c.isDigit then csvIntAux cs (acc * 10 + (c.toNat - 48)) true
    else (if inDigit then [acc] else []) ++ csvIntAux cs 0 false

/-- All integers in the raw argument text. -/
def csvIntFindall (l : Chars) : List Nat := csvIntAux l 0 false

/-- `_strip_values` on one value: strip enclosing quotes and undouble the
interior (`a[1:-1].replace(a[0] * 2, a[0])`). -/
def stripQuote (a : String) : String :=
  match a.toList with
  | c :: cs =>
    if c = Char.ofNat 34 || c = sq then String.mk (undoubleCh c cs.dropLast)
    else a
  | [] => a

/-- `_strip_values`: strip reflected values' quotes. -/
def _strip_values (values : List String) : List String := values.map stripQuote

/-- `_strip_values` lifted to typed arguments.  A string literal has its
quotes stripped; on an integer argument (the `int(v)` branch of
`_parse_column` line 203) the slice `a[0:1]` at reflection.py:554 raises
`TypeError` (an integer is not subscriptable), aborting the caller —
modelled as `none`.  The loop raises at the first integer, so the call
yields a value exactly when every argument is a string literal. -/
def stripTypeArgs : List TypeArg → Option (List TypeArg)
  | [] => some []
  | .int _ :: _ => none
  | .str a :: rest =>
    match stripTypeArgs rest with
    | none => none
    | some bs => some (.str (stripQuote a) :: bs)

/-- Positional type arguments from the raw `arg` capture: quoted lists decode
as string literals, anything else as integers (`_parse_column` lines 197-203). -/
def parseTypeArgs (arg : Option String) : List TypeArg :=
  match arg with
  | none => []
  | some a =>
    if a = "" then []
    else
      let l := a.toList
      if l.head? = some sq && l.getLast? = some sq then
        (csvStrFindall l.length l).map TypeArg.str
      else (csvIntFindall l).map TypeArg.int

/-- The fractional-seconds extraction of `_parse_column` lines 208-210:
pop the first positional argument when the type is in the
DATETIME/TIME/TIMESTAMP family. -/
def fspSplit (col_type : TypeDesc) (type_args : List TypeArg) :
    Option TypeArg × List TypeArg :=
  if col_type.isDatetimeFsp then
    match type_args with
    | a :: rest => (some a, rest)
    | [] => (none, [])
  else (none, type_args)

/-- The ENUM/SET handling of `_parse_column` lines 218-222: de-quote the
value literals and decide retrieve-as-bitwise; `_strip_values`'s
`TypeError` on integer arguments propagates. -/
def enumSetSplit (col_type : TypeDesc) (type_args : List TypeArg) :
    Option (List TypeArg × Bool) :=
  if col_type.isEnum || col_type.isSet then
    match stripTypeArgs type_args with
    | none => none
    | some st => some (st, col_type.isSet && st.contains (.str ""))
  else some (type_args, false)

/-- `_parse_column` lines 187-263: the `col_d` dictionary built from a
matched groupdict; `none` when the ENUM/SET value stripping raises
`TypeError` on an integer argument (reflection.py:554). -/
def buildCol (reg : Registry) (m : ColMatch) : Option ColumnSpec :=
  let col_type := resolveType reg m.coltype
  let fsp_args := fspSplit col_type (parseTypeArgs m.arg)
  match enumSetSplit col_type fsp_args.2 with
  | none => none
  | some args_bitwise =>
    some
      { name := m.name,
        type :=
          { desc := col_type, args := args_bitwise.1, fsp := fsp_args.1,
            unsigned := m.unsigned.isSome, zerofill := m.zerofill.isSome,
            charset := m.charset, collate := m.collate,
            retrieve_as_bitwise := args_bitwise.2 },
        default := if m.default = some "NULL" then none else m.default,
        comment := m.comment.map unescapeValue,
        nullable := !(m.notnull == some "NOT NULL"),
        autoincrement :=
          if m.autoincr.isSome then some true
          else if col_type.isInteger then some false
          else none,
        computed :=
          match m.generated with
          | some g => some { sqltext := g, persisted := m.persistence.map (fun p => p == "STORED") }
          | none => none }

/-- The "did not recognize type" warning of `_parse_column` lines 189-195. -/
def buildColWarn (reg : Registry) (m : ColMatch) : List String :=
  if (reg.ischema_names m.coltype).isSome then []
  else ["Did not recognize type " ++ pyRepr m.coltype ++ " of column " ++ pyRepr m.name]

/-- `_parse_column` lines 187-264: warn on an unrecognized type and append
the built column to the state; the `TypeError` of the ENUM/SET value
stripping propagates as `none`. -/
def buildColumn (reg : Registry) (m : ColMatch) (state : ReflectedState) :
    Option ReflectedState :=
  match buildCol reg m with
  | none => none
  | some col =>
    some ({ state with
            warnings := state.warnings ++ buildColWarn reg m,
            columns := state.columns ++ [col] })

/-- `_parse_column`: full grammar first, loose fallback with an
"incomplete reflection" warning, "unknown column definition" skip; `none`
when building the column raises `TypeError`. -/
def _parse_column (P : Preparer) (reg : Registry) (line : String)
    (state : ReflectedState) : Option ReflectedState :=
  match matchColumnFull P line.toList with
  | some m => buildColumn reg m state
  | none =>
    match matchColumnLoose P line.toList with
    | some m =>
      buildColumn reg m
        { state with warnings :=
            state.warnings ++ ["Incomplete reflection of column definition " ++ pyRepr line] }
    | none =>
      some ({ state with warnings :=
          state.warnings ++ ["Unknown column definition " ++ pyRepr line] })

/-- Digit run to a natural number. -/
def digitsToNat (l : Chars) : Nat := l.foldl (fun a c => a * 10 + (c.toNat - 48)) 0

/-- Case-insensitive prefix test. -/
def hasPreCI : Chars → Chars → Bool
  | [], _ => true
  | _ :: _, [] => false
  | p :: ps, c :: cs => charCI p c && hasPreCI ps cs

/-- One unit of the key-expression list
`(?:iq(name)fq)(?:\((\d+)\))?(?: +(ASC|DESC))?(?=\,|$)`. -/
def keyExprUnit (P : Preparer) (l : Chars) : Option (KeyExpr × Chars) :=
  match chLit P.initial_quote l with
  | none => none
  | some l1 =>
  let nm := identChars P.final_quote P.escFq l1
  if nm.1 = [] then none else
  match chLit P.final_quote nm.2 with
  | none => none
  | some l2 =>
  let len_l3 : Option Nat × Chars :=
    match l2 with
    | '(' :: cs =>
      (match takeWhile1 Char.isDigit cs with
       | some (d, r) =>
         (match r with
          | ')' :: cs2 => (some (digitsToNat d), cs2)
          | _ => (none, l2))
       | none => (none, l2))
    | _ => (none, l2)
  let dir_l4 : Option String × Chars :=
    match sp1 len_l3.2 with
    | some r =>
      (match strCI "ASC".toList r with
       | some rr => (some (String.mk (r.take 3)), rr)
       | none =>
         match strCI "DESC".toList r with
         | some rr => (some (String.mk (r.take 4)), rr)
         | none => (none, len_l3.2))
    | none => (none, len_l3.2)
  match dir_l4.2 with
  | [] => some ({ col := String.mk nm.1, length := len_l3.1, direction := dir_l4.1 }, [])
  | ',' :: _ =>
    some ({ col := String.mk nm.1, length := len_l3.1, direction := dir_l4.1 }, dir_l4.2)
  | _ => none

/-- `_re_keyexprs.findall`: scan left to right, emitting each matched unit
and advancing one character past a failed position. -/
def parseKeyexprsF (P : Preparer) : Nat → Chars → List KeyExpr
  | 0, _ => []
  | _ + 1, [] => []
  | f + 1, c :: cs =>
    match keyExprUnit P (c :: cs) with
    | some (u, rest) => u :: parseKeyexprsF P f rest
    | none => parseKeyexprsF P f cs

/-- `_parse_keyexprs`: unpack a `"col"(2),"col" ASC`-ish string. -/
def _parse_keyexprs (P : Preparer) (identifiers : String) : List KeyExpr :=
  parseKeyexprsF P (identifiers.toList.length + 1) identifiers.toList

/-- The groupdict of `_re_key` (columns still raw). -/
structure KeyMatch where
  ktype : Option String := none
  kname : Option String := none
  using_pre : Option String := none
  columns : String := ""
  using_post : Option String := none
  keyblock : Option String := none
  kparser : Option String := none
  kcomment : Option String := none
  version_sql : Option String := none
deriving DecidableEq, Repr

/-- `USING +(\S+)` clause body. -/
def fUsing (l : Chars) : Option (String × Chars) :=
  match strCI "USING".toList l with
  | some r =>
    (match sp1 r with
     | some r2 =>
       (match takeWhile1 isNonSpace r2 with
        | some (w, r3) => some (String.mk w, r3)
        | none => none)
     | none => none)
  | none => none

/-- `KEY_BLOCK_SIZE *[ =]? *(\S+)` clause body. -/
def fKeyBlock (l : Chars) : Option (String × Chars) :=
  match strCI "KEY_BLOCK_SIZE".toList l with
  | none => none
  | some r =>
    let r1 := (takeWhileCh (fun c => c = ' ') r).2
    let r2 := match r1 with
              | '=' :: cs => cs
              | ' ' :: cs => cs
              | _ => r1
    let r3 := (takeWhileCh (fun c => c = ' ') r2).2
    match takeWhile1 isNonSpace r3 with
    | some (w, r4) => some (String.mk w, r4)
    | none => none

/-- `WITH PARSER +(\S+)` clause body. -/
def fWithParse (l : Chars) : Option (String × Chars) :=
  match strCI "WITH PARSER".toList l with
  | some r =>
    (match sp1 r with
     | some r2 =>
       (match takeWhile1 isNonSpace r2 with
        | some (w, r3) => some (String.mk w, r3)
        | none => none)
     | none => none)
  | none => none

/-- One segment of the key-comment alternation `(''|'([^'])*?')`. -/
def kcSegment (l : Chars) : Option (Chars × Chars) :=
  match l with
  | c :: c' :: cs =>
    if c = sq && c' = sq then some ([c, c'], cs)
    else if c = sq then
      let t := takeWhileCh (fun ch => ch ≠ sq) (c' :: cs)
      match t.2 with
      | q :: rest => some (c :: t.1 ++ [q], rest)
      | [] => none
    else none
  | _ => none

/-- One-or-more key-comment segments (greedy). -/
def kcChunks : Nat → Chars → Option (Chars × Chars)
  | 0, _ => none
  | f + 1, l =>
    match kcSegment l with
    | none => none
    | some (seg, rest) =>
      match rest with
      | c :: _ =>
        if c = sq then
          match kcChunks f rest with
          | some (more, r2) => some (seg ++ more, r2)
          | none => some (seg, rest)
        else some (seg, rest)
      | [] => some (seg, rest)

/-- `COMMENT +((''|'([^'])*?')+)` clause body of a key line
(quotes kept in the capture). -/
def fKeyComment (l : Chars) : Option (String × Chars) :=
  match strCI "COMMENT".toList l with
  | some r =>
    (match sp1 r with
     | some r2 =>
       (match kcChunks r2.length r2 with
        | some (txt, r3) => some (String.mk txt, r3)
        | none => none)
     | none => none)
  | none => none

/-- All decompositions around the two-character sequence `x y`
(shortest leading part first). -/
def splits2 (x y : Char) : Chars → List (Chars × Chars)
  | [] => []
  | [_] => []
  | c :: c' :: cs =>
    let tails := (splits2 x y (c' :: cs)).map (fun p => (c :: p.1, p.2))
    if c = x && c' = y then ([], cs) :: tails else tails

/-- All decompositions around a single character (shortest first). -/
def splitsAtChar (x : Char) : Chars → List (Chars × Chars)
  | [] => []
  | c :: cs =>
    let tails := (splitsAtChar x cs).map (fun p => (c :: p.1, p.2))
    if c = x then ([], cs) :: tails else tails

/-- Tail check `( +,?$)` after a version-gated comment. -/
def vsqlOk (tail : Chars) : Bool :=
  match sp1 tail with
  | some r => r = [] || r = [',']
  | none => false

/-- `(?: +/\*(?P<version_sql>.+)\*/ +)?,?$`: the optional version-gated
comment at the end of a key line, with the greedy `.+` resolved from the
longest candidate down. -/
def vsqlTail (l : Chars) : Option (Option String) :=
  if l = [] || l = [','] then some none
  else
    match sp1 l with
    | none => none
    | some r =>
      match strCS "/*".toList r with
      | none => none
      | some r2 =>
        match ((splits2 '*' '/' r2).reverse.filter
            (fun p => decide (p.1 ≠ []) && vsqlOk p.2)).head? with
        | some (content, _) => some (some (String.mk content))
        | none => none

/-- First success of `f` over a list. -/
def firstSome {α β : Type} (f : α → Option β) : List α → Option β
  | [] => none
  | a :: rest =>
    match f a with
    | some b => some b
    | none => firstSome f rest

/-- The optional clauses of `_re_key` after the column list, ending in
`,?$`. -/
def keyCont (l : Chars) :
    Option (Option String × Option String × Option String × Option String × Option String) :=
  let up := optcl l fUsing
  let kb := optcl up.2 fKeyBlock
  let wp := optcl kb.2 fWithParse
  let cm := optcl wp.2 fKeyComment
  match vsqlTail cm.2 with
  | some v => some (up.1, kb.1, wp.1, cm.1, v)
  | none => none

/-- `_re_key`: `  (?:(\S+) )?KEY(?: +iq(name)fq)?(?: +USING +(\S+))? +
\((columns .+?)\)` followed by `keyCont`; the lazy column capture takes the
shortest paren split whose continuation succeeds. -/
def matchKey (P : Preparer) (l : Chars) : Option KeyMatch :=
  match strCS "  ".toList l with
  | none => none
  | some l1 =>
  let tk : Option String × Chars :=
    match takeWhile1 isNonSpace l1 with
    | some (w, r) =>
      (match r with
       | ' ' :: r2 =>
         (match strCI "KEY".toList r2 with
          | some _ => (some (String.mk w), r2)
          | none => (none, l1))
       | _ => (none, l1))
    | none => (none, l1)
  match strCI "KEY".toList tk.2 with
  | none => none
  | some l2 =>
  let nm_l3 : Option String × Chars :=
    match sp1 l2 with
    | some r =>
      (match chLit P.initial_quote r with
       | some r2 =>
         let nmp := identChars P.final_quote P.escFq r2
         if nmp.1 = [] then (none, l2)
         else
           (match chLit P.final_quote nmp.2 with
            | some r3 => (some (String.mk nmp.1), r3)
            | none => (none, l2))
       | none => (none, l2))
    | none => (none, l2)
  let up := optcl nm_l3.2 fUsing
  match sp1 up.2 with
  | none => none
  | some l5 =>
  match chLit '(' l5 with
  | none => none
  | some l6 =>
  firstSome
    (fun p =>
      if p.1 = ([] : Chars) then none
      else
        match keyCont p.2 with
        | some (upost, kb, wp, cm, vs) =>
          some { ktype := tk.1, kname := nm_l3.1, using_pre := up.1,
                 columns := String.mk p.1, using_post := upost, keyblock := kb,
                 kparser := wp, kcomment := cm, version_sql := vs }
        | none => none)
    (splitsAtChar ')' l6)

/-- `_re_key_version_sql`: `\!\d+ (?: *WITH PARSER +(\S+) *)?`; returns the
optional parser capture when the line matches at all. -/
def matchKeyVersionSql (l : Chars) : Option (Option String) :=
  match chLit '!' l with
  | none => none
  | some r =>
    match takeWhile1 Char.isDigit r with
    | none => none
    | some (_, r2) =>
      match r2 with
      | ' ' :: r3 =>
        let r4 := (takeWhileCh (fun c => c = ' ') r3).2
        (match strCI "WITH PARSER".toList r4 with
         | some r5 =>
           (match sp1 r5 with
            | some r6 =>
              (match takeWhile1 isNonSpace r6 with
               | some (w, _) => some (some (String.mk w))
               | none => some none)
            | none => some none)
         | none => some none)
      | _ => none

/-- A `KeyMatch` processed into a `KeySpec` (lines 81-95 of the source):
column expressions decoded, a parser name recovered from the version-gated
comment when present, and the parser name identifier-unformatted. -/
def processKeySpec (P : Preparer) (m : KeyMatch) : KeySpec :=
  let cols := _parse_keyexprs P m.columns
  let p1 : Option String :=
    match m.version_sql with
    | some vs =>
      (match matchKeyVersionSql vs.toList with
       | some (some p) => some p
       | _ => m.kparser)
    | none => m.kparser
  let p2 := p1.map fun p => (P.unformat_identifiers p).headD ""
  { ktype := m.ktype, kname := m.kname, using_pre := m.using_pre, columns := cols,
    using_post := m.using_post, keyblock := m.keyblock, kparser := p2,
    kcomment := m.kcomment, version_sql := m.version_sql }

/-- Ordered keyword alternation, capturing the original text. -/
def altCI (kws : List String) (l : Chars) : Option (String × Chars) :=
  match kws with
  | [] => none
  | kw :: rest =>
    match strCI kw.toList l with
    | some r => some (String.mk (l.take kw.length), r)
    | none => altCI rest l

/-- The referential-action vocabulary `RESTRICT|CASCADE|SET NULL|NO ACTION`. -/
def fkAction (l : Chars) : Option (String × Chars) :=
  altCI ["RESTRICT", "CASCADE", "SET NULL", "NO ACTION"] l

/-- `MATCH \w+` clause body (whole text captured). -/
def fMatchMode (l : Chars) : Option (String × Chars) :=
  match strCI "MATCH ".toList l with
  | some r =>
    (match takeWhile1 isWordChar r with
     | some (w, r2) => some (String.mk (l.take (6 + w.length)), r2)
     | none => none)
  | none => none

/-- `ON DELETE (action)` / `ON UPDATE (action)` clause body. -/
def fkOnClause (which : String) (l : Chars) : Option (String × Chars) :=
  match strCI (which ++ " ").toList l with
  | some r => fkAction r
  | none => none

/-- The quoted, possibly schema-qualified table reference
`(iq[^fq]+fq(?:\.iq[^fq]+fq)?)` of `_re_fk_constraint`
(quotes kept in the capture). -/
def fkTable (P : Preparer) (l : Chars) : Option (Chars × Chars) :=
  match chLit P.initial_quote l with
  | none => none
  | some r =>
    match takeWhile1 (fun c => c ≠ P.final_quote) r with
    | none => none
    | some (t1, r2) =>
      match chLit P.final_quote r2 with
      | none => none
      | some r3 =>
        let base : Chars := P.initial_quote :: t1 ++ [P.final_quote]
        match r3 with
        | '.' :: r4 =>
          (match chLit P.initial_quote r4 with
           | some r5 =>
             (match takeWhile1 (fun c => c ≠ P.final_quote) r5 with
              | some (t2, r6) =>
                (match chLit P.final_quote r6 with
                 | some r7 =>
                   some (base ++ '.' :: P.initial_quote :: t2 ++ [P.final_quote], r7)
                 | none => some (base, '.' :: r4))
              | none => some (base, '.' :: r4))
           | none => some (base, '.' :: r4))
        | _ => some (base, r3)

/-- The groupdict of `_re_fk_constraint` (lists still raw). -/
structure FkMatch where
  fname : String
  local_raw : String
  table_raw : String
  foreign_raw : String
  fmatch : Option String := none
  ondelete : Option String := none
  onupdate : Option String := none
deriving DecidableEq, Repr

/-- `_re_fk_constraint` (prefix match; no end anchor in the source). -/
def matchFk (P : Preparer) (l : Chars) : Option FkMatch :=
  match strCS "  ".toList l with
  | none => none
  | some l1 =>
  match strCI "CONSTRAINT".toList l1 with
  | none => none
  | some l2 =>
  match sp1 l2 with
  | none => none
  | some l3 =>
  match chLit P.initial_quote l3 with
  | none => none
  | some l4 =>
  let nm := identChars P.final_quote P.escFq l4
  if nm.1 = [] then none else
  match chLit P.final_quote nm.2 with
  | none => none
  | some l5 =>
  match sp1 l5 with
  | none => none
  | some l6 =>
  match strCI "FOREIGN KEY".toList l6 with
  | none => none
  | some l7 =>
  match sp1 l7 with
  | none => none
  | some l8 =>
  match chLit '(' l8 with
  | none => none
  | some l9 =>
  let lc := takeWhileCh (fun c => c ≠ ')') l9
  if lc.1 = [] then none else
  match lc.2 with
  | ')' :: l10 =>
    (match strCS " ".toList l10 with
     | none => none
     | some l11 =>
     match strCI "REFERENCES".toList l11 with
     | none => none
     | some l12 =>
     match sp1 l12 with
     | none => none
     | some l13 =>
     match fkTable P l13 with
     | none => none
     | some (tbl, l14) =>
     match sp1 l14 with
     | none => none
     | some l15 =>
     match chLit '(' l15 with
     | none => none
     | some l16 =>
     let fc := takeWhileCh (fun c => c ≠ ')') l16
     if fc.1 = [] then none else
     match fc.2 with
     | ')' :: l17 =>
       let mm := optcl l17 fMatchMode
       let od := optcl mm.2 (fkOnClause "ON DELETE")
       let ou := optcl od.2 (fkOnClause "ON UPDATE")
       some { fname := String.mk nm.1, local_raw := String.mk lc.1,
              table_raw := String.mk tbl, foreign_raw := String.mk fc.1,
              fmatch := mm.1, ondelete := od.1, onupdate := ou.1 }
     | _ => none)
  | _ => none

/-- `_parse_constraints` post-processing of a foreign-key match
(lines 98-106 of the source). -/
def processFkSpec (P : Preparer) (m : FkMatch) : FkSpec :=
  { fname := m.fname,
    local_cols := (_parse_keyexprs P m.local_raw).map KeyExpr.col,
    table := P.unformat_identifiers m.table_raw,
    foreign_cols := (_parse_keyexprs P m.foreign_raw).map KeyExpr.col,
    fmatch := m.fmatch, ondelete := m.ondelete, onupdate := m.onupdate }

/-- `_re_ck_constraint`: `  CONSTRAINT +iq(name)fq +CHECK +\((sqltext .+)\),?`
with the greedy expression capture running to the last closing paren. -/
def matchCk (P : Preparer) (l : Chars) : Option (String × String) :=
  match strCS "  ".toList l with
  | none => none
  | some l1 =>
  match strCI "CONSTRAINT".toList l1 with
  | none => none
  | some l2 =>
  match sp1 l2 with
  | none => none
  | some l3 =>
  match chLit P.initial_quote l3 with
  | none => none
  | some l4 =>
  let nm := identChars P.final_quote P.escFq l4
  if nm.1 = [] then none else
  match chLit P.final_quote nm.2 with
  | none => none
  | some l5 =>
  match sp1 l5 with
  | none => none
  | some l6 =>
  match strCI "CHECK".toList l6 with
  | none => none
  | some l7 =>
  match sp1 l7 with
  | none => none
  | some l8 =>
  match chLit '(' l8 with
  | none => none
  | some l9 =>
  match lastSplitAt ')' l9 with
  | some (inner, _) =>
    if inner = [] then none
    else some (String.mk nm.1, String.mk inner)
  | none => none

/-- `_re_partition` = `(?:.*)(?:SUB)?PARTITION(?:.*)` under `re.match`:
the line contains the token PARTITION (case-insensitively) with no newline
before it. -/
def partitionHit : Chars → Bool
  | [] => false
  | c :: cs =>
    if hasPreCI "PARTITION".toList (c :: cs) then true
    else if c = '\n' then false
    else partitionHit cs

/-- The classification returned by `_parse_constraints`
(`(type_, spec)` in the source; `(None, line)` becomes `unknown`). -/
inductive ConstraintParse where
  | key (s : KeySpec)
  | fk (s : FkSpec)
  | ck (s : CkSpec)
  | partitionLine (line : String)
  | unknown (line : String)
deriving DecidableEq, Repr

/-- `_parse_constraints`: KEY, then FOREIGN KEY, then CHECK, then
PARTITION, else no match. -/
def _parse_constraints (P : Preparer) (line : String) : ConstraintParse :=
  match matchKey P line.toList with
  | some m => .key (processKeySpec P m)
  | none =>
    match matchFk P line.toList with
    | some m => .fk (processFkSpec P m)
    | none =>
      match matchCk P line.toList with
      | some (n, t) => .ck { cname := n, sqltext := t }
      | none =>
        if partitionHit line.toList then .partitionLine line
        else .unknown line

/-- The tail `TABLE +iq(name)fq +\($` of the header pattern. -/
def headTail (P : Preparer) (l : Chars) : Option Chars :=
  match strCI "TABLE".toList l with
  | none => none
  | some r =>
  match sp1 r with
  | none => none
  | some r2 =>
  match chLit P.initial_quote r2 with
  | none => none
  | some r3 =>
  let nm := identChars P.final_quote P.escFq r3
  if nm.1 = [] then none else
  match chLit P.final_quote nm.2 with
  | none => none
  | some r4 =>
  match sp1 r4 with
  | none => none
  | some r5 =>
  match r5 with
  | ['('] => some nm.1
  | _ => none

/-- `_pr_name`'s regex `^CREATE (?:\w+ +)?TABLE +iq(name)fq +\($`:
the optional `\w+ +` is dropped again when the rest fails after it. -/
def matchTableName (P : Preparer) (l : Chars) : Option Chars :=
  match strCI "CREATE ".toList l with
  | none => none
  | some r =>
    let cand : Option Chars :=
      match takeWhile1 isWordChar r with
      | some (_, r2) =>
        (match sp1 r2 with
         | some r3 => headTail P r3
         | none => none)
      | none => none
    match cand with
    | some nm => some nm
    | none => headTail P r

/-- `_parse_table_name`: set `state.table_name` to the unescaped capture
when the header pattern matches; do nothing (and warn nothing) otherwise. -/
def _parse_table_name (P : Preparer) (line : String) (state : ReflectedState) :
    ReflectedState :=
  match matchTableName P line.toList with
  | some nm => { state with table_name := some (P.unescape_identifier (String.mk nm)) }
  | none => state

/-- The three registered table-option pattern shapes
(`_add_option_string`, `_add_option_word`, `_add_option_regex`, the last
specialized to its three uses). -/
inductive OptKind where
  | str
  | word
  | regexUnion
  | regexTablespace
  | regexRaid
deriving DecidableEq, Repr

/-- A registered table-option pattern: escaped directive plus value shape. -/
structure OptPattern where
  directive : String
  kind : OptKind
deriving DecidableEq, Repr

/-- `_options_of_type_string`. -/
def _options_of_type_string : List String :=
  ["COMMENT", "DATA DIRECTORY", "INDEX DIRECTORY", "PASSWORD", "CONNECTION"]

/-- The word-valued directives registered in `_prep_regexes`. -/
def _options_words : List String :=
  ["ENGINE", "TYPE", "AUTO_INCREMENT", "AVG_ROW_LENGTH", "CHARACTER SET",
   "DEFAULT CHARSET", "CHECKSUM", "COLLATE", "DELAY_KEY_WRITE", "INSERT_METHOD",
   "MAX_ROWS", "MIN_ROWS", "PACK_KEYS", "ROW_FORMAT", "KEY_BLOCK_SIZE"]

/-- `self._pr_options`: string patterns first, then word patterns, then the
three custom regex patterns, in registration order. -/
def _pr_options : List OptPattern :=
  (_options_of_type_string.map fun d => { directive := d, kind := OptKind.str }) ++
  (_options_words.map fun d => { directive := d, kind := OptKind.word }) ++
  [{ directive := "UNION", kind := OptKind.regexUnion },
   { directive := "TABLESPACE", kind := OptKind.regexTablespace },
   { directive := "RAID_TYPE", kind := OptKind.regexRaid }]

/-- `_optional_equals` = `(?:\s*(?:=\s*)|\s+)`. -/
def optEquals (l : Chars) : Option Chars :=
  let t := takeWhileCh isSpaceChar l
  match t.2 with
  | '=' :: cs => some (takeWhileCh isSpaceChar cs).2
  | _ =>
    match l with
    | c :: _ => if isSpaceChar c then some t.2 else none
    | [] => none

/-- `.*? STORAGE DISK` (lazy): earliest case-insensitive occurrence of
` STORAGE DISK`, no newline crossed. -/
def tsScanF : Nat → Chars → Option (Chars × Chars)
  | 0, _ => none
  | f + 1, l =>
    match strCI " STORAGE DISK".toList l with
    | some r => some (l.take 13, r)
    | none =>
      match l with
      | [] => none
      | c :: cs =>
        if c = '\n' then none
        else (tsScanF f cs).map fun p => (c :: p.1, p.2)

/-- `\w+\s+RAID_CHUNKS\s*\=\s*\w+RAID_CHUNKSIZE\s*=\s*\w+`; the greedy
`\w+RAID_CHUNKSIZE` is the maximal word run ending in `RAID_CHUNKSIZE`. -/
def raidVal (l : Chars) : Option (String × Chars) :=
  match takeWhile1 isWordChar l with
  | none => none
  | some (_, r) =>
    let s1 := takeWhileCh isSpaceChar r
    if s1.1 = [] then none else
    match strCI "RAID_CHUNKS".toList s1.2 with
    | none => none
    | some r2 =>
      let s2 := takeWhileCh isSpaceChar r2
      match s2.2 with
      | '=' :: r3 =>
        let s3 := takeWhileCh isSpaceChar r3
        (match takeWhile1 isWordChar s3.2 with
         | none => none
         | some (w, r4) =>
           if 15 ≤ w.length && hasPreCI "RAID_CHUNKSIZE".toList (w.drop (w.length - 14)) then
             let s4 := takeWhileCh isSpaceChar r4
             match s4.2 with
             | '=' :: r5 =>
               let s5 := takeWhileCh isSpaceChar r5
               (match takeWhile1 isWordChar s5.2 with
                | some (_, r6) => some (String.mk (l.take (l.length - r6.length)), r6)
                | none => none)
             | _ => none
           else none)
      | _ => none

/-- The value grammar of each option-pattern kind; returns the `val`
capture and the rest. -/
def optVal (k : OptKind) (l : Chars) : Option (String × Chars) :=
  match k with
  | .str =>
    (match l with
     | c :: cs =>
       if c = sq then (qContent cs).map (fun r => (String.mk r.1, r.2)) else none
     | [] => none)
  | .word => (takeWhile1 isWordChar l).map fun r => (String.mk r.1, r.2)
  | .regexUnion =>
    (match l with
     | '(' :: cs =>
       let t := takeWhileCh (fun c => c ≠ ')') cs
       if t.1 = [] then none
       else
         (match t.2 with
          | ')' :: rest => some (String.mk ('(' :: t.1 ++ [')']), rest)
          | _ => none)
     | _ => none)
  | .regexTablespace => (tsScanF (l.length + 1) l).map fun p => (String.mk p.1, p.2)
  | .regexRaid => raidVal l

/-- A successful option-pattern match: the directive as it appeared, the
`val` capture, and the total number of characters consumed. -/
structure OptMatch where
  directive : String
  val : String
  consumed : Nat
deriving DecidableEq, Repr

/-- Try an option pattern anchored at the head of `l`. -/
def optMatchAt (p : OptPattern) (l : Chars) : Option OptMatch :=
  match strCI p.directive.toList l with
  | none => none
  | some r =>
    match optEquals r with
    | none => none
    | some r2 =>
      match optVal p.kind r2 with
      | some (v, r3) =>
        some { directive := String.mk (l.take p.directive.length), val := v,
               consumed := l.length - r3.length }
      | none => none

/-- `regex.search`: the leftmost match, with the text before and after it. -/
def optSearchF (p : OptPattern) : Nat → Chars → Option (Chars × OptMatch × Chars)
  | 0, _ => none
  | f + 1, l =>
    match optMatchAt p l with
    | some m => some ([], m, l.drop m.consumed)
    | none =>
      match l with
      | [] => none
      | c :: cs => (optSearchF p f cs).map fun r => (c :: r.1, r.2)

/-- `regex.search` over a character list. -/
def optSearch (p : OptPattern) (l : Chars) : Option (Chars × OptMatch × Chars) :=
  optSearchF p (l.length + 1) l

/-- `regex.sub("", text)`: remove every non-overlapping match, left to
right, without rescanning removed junctions. -/
def optSubAllF (p : OptPattern) : Nat → Chars → Chars
  | 0, l => l
  | f + 1, l =>
    match optSearch p l with
    | some (pre, _, post) => pre ++ optSubAllF p f post
    | none => l

/-- `regex.sub("", text)` with sufficient fuel. -/
def optSubAll (p : OptPattern) (l : Chars) : Chars := optSubAllF p (l.length + 1) l

/-- The per-kind cleanup callable (`_pr_compile`'s second component):
string options unescape backslashes and doubled quotes. -/
def optClean (k : OptKind) (v : String) : String :=
  match k with
  | .str => unescapeValue v
  | _ => v

/-- Python-dict insertion: overwrite in place, else append. -/
def dictInsert (k v : String) : List (String × String) → List (String × String)
  | [] => [(k, v)]
  | (k', v') :: rest =>
    if k' = k then (k', v) :: rest else (k', v') :: dictInsert k v rest

/-- Python-dict `pop(key, None)`. -/
def dictErase (k : String) : List (String × String) → List (String × String)
  | [] => []
  | (k', v') :: rest => if k' = k then rest else (k', v') :: dictErase k rest

/-- Python-dict lookup. -/
def dictFind (k : String) : List (String × String) → Option String
  | [] => none
  | (k', v') :: rest => if k' = k then some v' else dictFind k rest

/-- The option-scanning loop of `_parse_table_options`: for each pattern,
search the remaining text; on a match record the lowercased directive
mapped to the cleaned value and strip the match before the next pattern. -/
def scanOpts : List OptPattern → List (String × String) → Chars →
    List (String × String) × Chars
  | [], opts, rest => (opts, rest)
  | p :: ps, opts, rest =>
    match optSearch p rest with
    | none => scanOpts ps opts rest
    | some (_, m, _) =>
      scanOpts ps (dictInsert (lowerStr m.directive) (optClean p.kind m.val) opts)
        (optSubAll p rest)

/-- `_parse_table_options`: scan, discard the three non-persisted
directives, and store the survivors namespaced by the dialect name. -/
def _parse_table_options (dialectName : String) (line : String)
    (state : ReflectedState) : ReflectedState :=
  let options : List (String × String) :=
    if line = "" || line = ")" then []
    else (scanOpts _pr_options [] line.toList).1
  let o1 := dictErase "auto_increment" options
  let o2 := dictErase "data directory" o1
  let o3 := dictErase "index directory" o2
  let stored := o3.foldl (fun t kv => dictInsert (dialectName ++ "_" ++ kv.1) kv.2 t)
    state.table_options
  { state with table_options := stored }

/-- `re.split(r"\r?\n", text)` over characters: a separator is `\r\n` or
a bare `\n`. -/
def splitChars : Chars → List Chars
  | [] => [[]]
  | [c] => if c = '\n' then [[], []] else [[c]]
  | c :: c' :: cs =>
    if c = '\n' then [] :: splitChars (c' :: cs)
    else if c = '\r' && c' = '\n' then [] :: splitChars cs
    else
      match splitChars (c' :: cs) with
      | l :: ls => (c :: l) :: ls
      | [] => [[c]]

/-- `re.split(r"\r?\n", text)`. -/
def splitLines (s : String) : List String := (splitChars s.toList).map String.mk

/-- The line classifier and dispatcher: the body of `parse`'s loop; a
column line whose build raises `TypeError` aborts (`none`). -/
def processLine (P : Preparer) (reg : Registry) (dialectName : String)
    (state : ReflectedState) (line : String) : Option ReflectedState :=
  if hasPre ("  ".toList ++ [P.initial_quote]) line.toList then
    _parse_column P reg line state
  else if hasPre ") ".toList line.toList then
    some (_parse_table_options dialectName line state)
  else if line = ")" then some state
  else if hasPre "CREATE ".toList line.toList then
    some (_parse_table_name P line state)
  else if line = "" then some state
  else
    match _parse_constraints P line with
    | .unknown ln =>
      some { state with warnings := state.warnings ++ ["Unknown schema content: " ++ pyRepr ln] }
    | .key s => some { state with keys := state.keys ++ [s] }
    | .fk s => some { state with fk_constraints := state.fk_constraints ++ [s] }
    | .ck s => some { state with ck_constraints := state.ck_constraints ++ [s] }
    | .partitionLine _ => some state

/-- One iteration of `parse`'s loop with the pending exception propagated:
once a line has raised, the exception unwinds past every remaining
iteration. -/
def stepLine (P : Preparer) (reg : Registry) (dialectName : String)
    (acc : Option ReflectedState) (line : String) : Option ReflectedState :=
  match acc with
  | none => none
  | some st => processLine P reg dialectName st line

/-- `parse` over an already-split line list: `none` when some line raised. -/
def parseLines (P : Preparer) (reg : Registry) (dialectName : String)
    (ls : List String) (charset : Option String) : Option ReflectedState :=
  ls.foldl (stepLine P reg dialectName) (some { charset := charset })

/-- `parse(show_create, charset)`: fresh state, line loop, return; `none`
models the uncaught `TypeError` escaping `parse`. -/
def parse (P : Preparer) (reg : Registry) (dialectName : String)
    (show_create : String) (charset : Option String) : Option ReflectedState :=
  parseLines P reg dialectName (splitLines show_create) charset

/-- Python `str.join`. -/
def pyJoin (sep : String) : List String → String
  | [] => ""
  | [s] => s
  | s :: s' :: rest => s ++ sep ++ pyJoin sep (s' :: rest)

/-- One row of DESCRIBE output as consumed by `_describe_to_create`:
the 6-tuple projected at indices (0,1,2,4,5), with Python truthiness of
the nullable/default/extra cells modelled as a Bool and empty strings. -/
structure DescribeRow where
  name : String
  col_type : String
  nullable : Bool
  default : String
  extra : String
deriving DecidableEq, Repr

/-- One synthesized column line of `_describe_to_create`
(`" ".join([" ", quoted-name, type, ...])`). -/
def describeRowLine (P : Preparer) (r : DescribeRow) : String :=
  let l0 := [" ", quoteIdentifier P r.name, r.col_type]
  let l1 := if r.nullable then l0 else l0 ++ ["NOT NULL"]
  let l2 :=
    if r.default = "" then l1
    else if containsSeq "auto_increment".toList r.default.toList then l1
    else if hasPre "timestamp".toList r.col_type.toList && hasPre ['C'] r.default.toList then
      l1 ++ ["DEFAULT", r.default]
    else if r.default = "NULL" then l1 ++ ["DEFAULT", r.default]
    else l1 ++ ["DEFAULT", String.mk (sq :: doubleCh sq r.default.toList ++ [sq])]
  let l3 := if r.extra = "" then l2 else l2 ++ [r.extra]
  pyJoin " " l3

/-- `_describe_to_create`: re-format DESCRIBE output as a SHOW CREATE
TABLE string (columns only, keys omitted). -/
def _describe_to_create (P : Preparer) (table_name : String)
    (columns : List DescribeRow) : String :=
  "CREATE TABLE " ++ quoteIdentifier P table_name ++ " (\n" ++
    pyJoin ",\n" (columns.map (describeRowLine P)) ++ "\n) "

/-- Modelled from the spec: a small concrete instance of the external type
registry, used to instantiate theorems (the real `ischema_names` lives in
the dialect modules outside the parser source). -/
def sampleRegistry : Registry where
  ischema_names := fun s =>
    if s = "int" then some { tname := "INTEGER", isInteger := true }
    else if s = "tinyint" then some { tname := "TINYINT", isInteger := true }
    else if s = "varchar" then some { tname := "VARCHAR" }
    else if s = "text" then some { tname := "TEXT" }
    else if s = "timestamp" || s = "TIMESTAMP" then
      some { tname := "TIMESTAMP", isDatetimeFsp := true }
    else if s = "datetime" then some { tname := "DATETIME", isDatetimeFsp := true }
    else if s = "enum" || s = "ENUM" then some { tname := "ENUM", isEnum := true }
    else if s = "set" || s = "SET" then some { tname := "SET", isSet := true }
    else none

/-- The fresh state allocated at the top of `parse` (no charset supplied). -/
def initState : ReflectedState := { charset := none }

/-- A line on which the dispatcher reaches the constraint/key branch:
not a column line, not an options line, not the bare terminator,
not a header line, not empty. -/
def routesToConstraints (P : Preparer) (line : String) : Bool :=
  !hasPre ("  ".toList ++ [P.initial_quote]) line.toList &&
  !hasPre ") ".toList line.toList && !decide (line = ")") &&
  !hasPre "CREATE ".toList line.toList && !decide (line = "")

/-! ## Theorems -/

/-- The keys of an option dictionary. -/
def dictKeys (l : List (String × String)) : List String := l.map Prod.fst

/-- The non-warning fields of a state (the structured parse output). -/
def coreOf (s : ReflectedState) :=
  (s.columns, s.table_options, s.table_name, s.keys, s.fk_constraints,
   s.ck_constraints, s.charset)

/-! ### C1: the `_describe_to_create` / `parse` round trip

A *simple column listing* is one whose rows use well-formed identifiers
(nonempty, quote- and newline-free), bare word type keywords, defaults in
one of the shapes `_describe_to_create` distinguishes, and no extra text. -/

/-- No newline or carriage return (the text stays on one line). -/
def cleanStr (s : String) : Prop := ∀ c ∈ s.toList, c ≠ '\n' ∧ c ≠ '\r'

/-- A well-formed identifier for the quoting convention: nonempty and free
of the quote character and line breaks. -/
def simpleName (s : String) : Prop :=
  s ≠ "" ∧ ∀ c ∈ s.toList, c ≠ bq ∧ c ≠ '\n' ∧ c ≠ '\r'

/-- A bare type keyword: a nonempty word. -/
def simpleType (s : String) : Prop :=
  s ≠ "" ∧ ∀ c ∈ s.toList, isWordChar c = true

/-- The formatter's condition for emitting the default unquoted:
timestamp-family type and a default beginning with `C`. -/
def tsUnquoted (r : DescribeRow) : Prop :=
  hasPre "timestamp".toList r.col_type.toList = true ∧
  hasPre ['C'] r.default.toList = true

/-- A default value in one of the shapes the formatter distinguishes:
absent, auto-increment (omitted), the literal `NULL`, an unquoted
function-call token, or any other line-break-free text (quoted). -/
def simpleDefault (r : DescribeRow) : Prop :=
  r.default = "" ∨
  containsSeq "auto_increment".toList r.default.toList = true ∨
  r.default = "NULL" ∨
  (containsSeq "auto_increment".toList r.default.toList = false ∧ tsUnquoted r ∧
    ∀ c ∈ r.default.toList, defaultChar c = true) ∨
  (r.default ≠ "" ∧ containsSeq "auto_increment".toList r.default.toList = false ∧
    ¬ tsUnquoted r ∧ r.default ≠ "NULL" ∧ cleanStr r.default)

/-- A row of a simple column listing. -/
def simpleRow (r : DescribeRow) : Prop :=
  simpleName r.name ∧ simpleType r.col_type ∧ simpleDefault r ∧ r.extra = ""

/-- The `default` group the column pattern captures from a formatted row
(mirroring the emit cases of `_describe_to_create`). -/
def dfCapture (r : DescribeRow) : Option String :=
  if r.default = "" then none
  else if containsSeq "auto_increment".toList r.default.toList then none
  else if hasPre "timestamp".toList r.col_type.toList &&
      hasPre ['C'] r.default.toList then some r.default
  else if r.default = "NULL" then some "NULL"
  else some (String.mk (sq :: doubleCh sq r.default.toList ++ [sq]))

/-- The groupdict the full column pattern produces on a formatted row. -/
def expectedMatch (r : DescribeRow) : ColMatch :=
  { name := r.name, coltype := r.col_type,
    notnull := if r.nullable then none else some "NOT NULL",
    default := dfCapture r }

/-- The `DEFAULT` segment of a formatted row line, case by case as
`_describe_to_create` emits it. -/
def dfPartChars (r : DescribeRow) : Chars :=
  if r.default = "" then []
  else if containsSeq "auto_increment".toList r.default.toList then []
  else if hasPre "timestamp".toList r.col_type.toList && hasPre ['C'] r.default.toList then
    " DEFAULT ".toList ++ r.default.toList
  else if r.default = "NULL" then " DEFAULT NULL".toList
  else " DEFAULT ".toList ++ (sq :: doubleCh sq r.default.toList ++ [sq])

/-- The line list the joined column block contributes to the split
statement: every formatted row line, a trailing comma on all but the
last (an empty listing contributes the single empty line). -/
def bodyLines (P : Preparer) : List DescribeRow → List String
  | [] => [""]
  | [r] => [describeRowLine P r]
  | r :: r2 :: rest => (describeRowLine P r ++ ",") :: bodyLines P (r2 :: rest)

section Claims

theorem buildColumn_columns (reg : Registry) (m : ColMatch) (s : ReflectedState)
    (col : ColumnSpec) (h : buildCol reg m = some col) :
    buildColumn reg m s =
      some ({ s with
              warnings := s.warnings ++ buildColWarn reg m,
              columns := s.columns ++ [col] }) := by
  unfold buildColumn
  rw [h]

theorem fspSplit_pos (d : TypeDesc) (l : List TypeArg) (hf : d.isDatetimeFsp = true) :
    fspSplit d l = (l.head?, l.tail) := by
  unfold fspSplit
  rw [hf]
  cases l <;> rfl

theorem enumSetSplit_pos (d : TypeDesc) (l : List TypeArg)
    (h : (d.isEnum || d.isSet) = true) :
    enumSetSplit d l =
      (match stripTypeArgs l with
       | none => none
       | some st => some (st, d.isSet && st.contains (.str ""))) := by
  unfold enumSetSplit
  rw [h]
  rfl

theorem enumSetSplit_neg (d : TypeDesc) (l : List TypeArg)
    (h : (d.isEnum || d.isSet) = false) :
    enumSetSplit d l = some (l, false) := by
  unfold enumSetSplit
  rw [h]
  rfl

theorem buildCol_fields (reg : Registry) (m : ColMatch) (col : ColumnSpec)
    (h : buildCol reg m = some col) :
    col.name = m.name ∧
    col.nullable = !(m.notnull == some "NOT NULL") ∧
    col.autoincrement = (if m.autoincr.isSome then some true
      else if (resolveType reg m.coltype).isInteger then some false else none) ∧
    col.type.desc = resolveType reg m.coltype ∧
    col.type.fsp = (fspSplit (resolveType reg m.coltype) (parseTypeArgs m.arg)).1 ∧
    ∃ ab, enumSetSplit (resolveType reg m.coltype)
        (fspSplit (resolveType reg m.coltype) (parseTypeArgs m.arg)).2 = some ab ∧
      col.type.args = ab.1 ∧ col.type.retrieve_as_bitwise = ab.2 := by
  simp only [buildCol] at h
  cases he : enumSetSplit (resolveType reg m.coltype)
      (fspSplit (resolveType reg m.coltype) (parseTypeArgs m.arg)).2 with
  | none => rw [he] at h; cases h
  | some ab =>
    rw [he] at h
    injection h with h2
    subst h2
    exact ⟨rfl, rfl, rfl, rfl, rfl, ab, rfl, rfl, rfl⟩

theorem parse_column_appends (reg : Registry) (line : String) (m : ColMatch)
    (s : ReflectedState) (col : ColumnSpec)
    (h : matchColumnFull mysqlPreparer line.toList = some m)
    (hcol : buildCol reg m = some col) :
    ∃ st, _parse_column mysqlPreparer reg line s = some st ∧
      st.columns = s.columns ++ [col] := by
  unfold _parse_column
  rw [h]
  exact ⟨_, buildColumn_columns reg m s col hcol, rfl⟩

/-- **C6.** For every parsed column line whose column the program actually
produces (the ENUM/SET value stripping does not raise `TypeError`), the
`autoincrement` field of the resulting ColumnSpec is three-valued:
`some true` when the AUTO_INCREMENT marker was captured; `some false` when
the marker is absent and the resolved type is in the integer family;
`none` (the key absent from `col_kw`) when the marker is absent and the
resolved type is not in the integer family. -/
theorem c6_autoincrement_three_valued (reg : Registry) (line : String)
    (m : ColMatch) (s : ReflectedState)
    (h : matchColumnFull mysqlPreparer line.toList = some m)
    (hb : (buildCol reg m).isSome = true) :
    ∃ col st, buildCol reg m = some col ∧
      _parse_column mysqlPreparer reg line s = some st ∧
      st.columns = s.columns ++ [col] ∧
      col.autoincrement =
        (if m.autoincr.isSome then some true
         else if (resolveType reg m.coltype).isInteger then some false
         else none) := by
  obtain ⟨col, hcol⟩ := Option.isSome_iff_exists.mp hb
  obtain ⟨st, h1, h2⟩ := parse_column_appends reg line m s col h hcol
  exact ⟨col, st, hcol, h1, h2, (buildCol_fields reg m col hcol).2.2.1⟩

/-- Witness for C6: `  \x60id\x60 int NOT NULL AUTO_INCREMENT,` has the marker,
so autoincrement is `some true`. -/
theorem c6_autoincrement_witness :
    ∃ col st,
      _parse_column mysqlPreparer sampleRegistry
        "  `id` int NOT NULL AUTO_INCREMENT," initState = some st ∧
      st.columns = initState.columns ++ [col] ∧
      col.autoincrement = some true := by
  obtain ⟨col, st, _, h1, h2, h3⟩ :=
    c6_autoincrement_three_valued sampleRegistry "  `id` int NOT NULL AUTO_INCREMENT,"
      { name := "id", coltype := "int", notnull := some "NOT NULL",
        autoincr := some "AUTO_INCREMENT" }
      initState (by decide) (by decide)
  exact ⟨col, st, h1, h2, by rw [h3]; decide⟩

/-- **C7.** For every groupdict whose column the program actually produces
(the ENUM/SET value stripping does not raise `TypeError`), `nullable`
defaults to true; it is forced to false exactly when the captured notnull
group is the literal `NOT NULL`; a captured literal `NULL` leaves it true;
and no captured token leaves it true. -/
theorem c7_nullable_default (reg : Registry) (m : ColMatch) (s : ReflectedState)
    (hb : (buildCol reg m).isSome = true) :
    ∃ col st, buildCol reg m = some col ∧
      buildColumn reg m s = some st ∧
      st.columns = s.columns ++ [col] ∧
      (col.nullable = false ↔ m.notnull = some "NOT NULL") ∧
      (m.notnull = some "NULL" → col.nullable = true) ∧
      (m.notnull = none → col.nullable = true) := by
  obtain ⟨col, hcol⟩ := Option.isSome_iff_exists.mp hb
  have hn := (buildCol_fields reg m col hcol).2.1
  refine ⟨col, _, hcol, buildColumn_columns reg m s col hcol, rfl, ?_, ?_, ?_⟩
  · rw [hn]
    simp
  · intro h
    rw [hn]
    simp [h]
  · intro h
    rw [hn]
    simp [h]

/-- Witness for C7: a captured literal `NULL` (the TIMESTAMP case) leaves
nullable true. -/
theorem c7_nullable_witness :
    ∃ col st,
      buildColumn sampleRegistry
        { name := "ts", coltype := "timestamp", notnull := some "NULL",
          default := some "NULL" } initState = some st ∧
      st.columns = initState.columns ++ [col] ∧
      col.nullable = true := by
  obtain ⟨col, st, _, h1, h2, _, h4, _⟩ :=
    c7_nullable_default sampleRegistry
      { name := "ts", coltype := "timestamp", notnull := some "NULL",
        default := some "NULL" } initState (by decide)
  exact ⟨col, st, h1, h2, h4 rfl⟩

/-- **C8.** For every parsed column line whose resolved type is in the
date/time-with-fractional-seconds family (and not in the ENUM/SET family),
the column is produced and its first positional type argument, when
present, is moved into the fractional-seconds-precision keyword and
removed from the positional arguments. -/
theorem c8_fsp_extraction (reg : Registry) (line : String) (m : ColMatch)
    (s : ReflectedState)
    (h : matchColumnFull mysqlPreparer line.toList = some m)
    (hf : (resolveType reg m.coltype).isDatetimeFsp = true)
    (hE : (resolveType reg m.coltype).isEnum = false)
    (hS : (resolveType reg m.coltype).isSet = false) :
    ∃ col st, buildCol reg m = some col ∧
      _parse_column mysqlPreparer reg line s = some st ∧
      st.columns = s.columns ++ [col] ∧
      col.type.fsp = (parseTypeArgs m.arg).head? ∧
      col.type.args = (parseTypeArgs m.arg).tail := by
  have hOr : ((resolveType reg m.coltype).isEnum ||
      (resolveType reg m.coltype).isSet) = false := by
    rw [hE, hS]; rfl
  have hb : (buildCol reg m).isSome = true := by
    simp only [buildCol]
    rw [enumSetSplit_neg _ _ hOr]
    rfl
  obtain ⟨col, hcol⟩ := Option.isSome_iff_exists.mp hb
  obtain ⟨st, h1, h2⟩ := parse_column_appends reg line m s col h hcol
  obtain ⟨_, _, _, _, hfsp, ab, hab, hargs, _⟩ := buildCol_fields reg m col hcol
  refine ⟨col, st, hcol, h1, h2, ?_, ?_⟩
  · rw [hfsp, fspSplit_pos _ _ hf]
  · rw [hargs]
    rw [enumSetSplit_neg _ _ hOr] at hab
    injection hab with hab2
    rw [← hab2, fspSplit_pos _ _ hf]

/-- Witness for C8: `  \x60col\x60 TIMESTAMP(3)` yields fsp = 3 and no
leftover positional arguments. -/
theorem c8_fsp_witness :
    ∃ col st,
      _parse_column mysqlPreparer sampleRegistry "  `col` TIMESTAMP(3)"
        initState = some st ∧
      st.columns = initState.columns ++ [col] ∧
      col.type.fsp = some (TypeArg.int 3) ∧
      col.type.args = [] := by
  obtain ⟨col, st, _, h1, h2, h3, h4⟩ :=
    c8_fsp_extraction sampleRegistry "  `col` TIMESTAMP(3)"
      { name := "col", coltype := "TIMESTAMP", arg := some "3" }
      initState (by decide) (by decide) (by decide) (by decide)
  refine ⟨col, st, h1, h2, ?_, ?_⟩
  · rw [h3]; decide
  · rw [h4]; decide

/-- **C9.** For every parsed column line whose resolved type is in the
ENUM/SET family (these types are not in the fractional-seconds family):
when every positional argument is a quoted string literal, the produced
column's type arguments are exactly the de-quoted value literals of
`_strip_values` and retrieve-as-bitwise is set exactly when the type is a
SET and an empty string is among the stripped values; when some argument
is an integer, `_strip_values` raises `TypeError` (reflection.py:554) and
`_parse_column` produces nothing at all. -/
theorem c9_enum_set_values (reg : Registry) (line : String) (m : ColMatch)
    (s : ReflectedState)
    (h : matchColumnFull mysqlPreparer line.toList = some m)
    (hES : (resolveType reg m.coltype).isEnum = true ∨
           (resolveType reg m.coltype).isSet = true)
    (hD : (resolveType reg m.coltype).isDatetimeFsp = false) :
    (∀ vals, stripTypeArgs (parseTypeArgs m.arg) = some vals →
      ∃ col st, buildCol reg m = some col ∧
        _parse_column mysqlPreparer reg line s = some st ∧
        st.columns = s.columns ++ [col] ∧
        col.type.args = vals ∧
        col.type.retrieve_as_bitwise =
          ((resolveType reg m.coltype).isSet && vals.contains (TypeArg.str ""))) ∧
    (stripTypeArgs (parseTypeArgs m.arg) = none →
      _parse_column mysqlPreparer reg line s = none) := by
  have hOr : ((resolveType reg m.coltype).isEnum ||
      (resolveType reg m.coltype).isSet) = true := by
    rcases hES with h' | h' <;> simp [h']
  have hX : (fspSplit (resolveType reg m.coltype) (parseTypeArgs m.arg)).2 =
      parseTypeArgs m.arg := by
    unfold fspSplit
    rw [hD]
    rfl
  constructor
  · intro vals hvals
    have hes : enumSetSplit (resolveType reg m.coltype)
        (fspSplit (resolveType reg m.coltype) (parseTypeArgs m.arg)).2 =
        some (vals, (resolveType reg m.coltype).isSet &&
          vals.contains (TypeArg.str "")) := by
      rw [hX, enumSetSplit_pos _ _ hOr, hvals]
    have hb : (buildCol reg m).isSome = true := by
      simp only [buildCol]
      rw [hes]
      rfl
    obtain ⟨col, hcol⟩ := Option.isSome_iff_exists.mp hb
    obtain ⟨st, h1, h2⟩ := parse_column_appends reg line m s col h hcol
    obtain ⟨_, _, _, _, _, ab, hab, hargs, hbit⟩ := buildCol_fields reg m col hcol
    rw [hes] at hab
    injection hab with hab2
    refine ⟨col, st, hcol, h1, h2, ?_, ?_⟩
    · rw [hargs, ← hab2]
    · rw [hbit, ← hab2]
  · intro hnone
    have hcol : buildCol reg m = none := by
      simp only [buildCol]
      rw [hX, enumSetSplit_pos _ _ hOr, hnone]
    unfold _parse_column
    rw [h]
    show buildColumn reg m s = none
    unfold buildColumn
    rw [hcol]

/-- Witness for C9: `  \x60col\x60 SET('a','','b'),` has an empty value among the
stripped literals, so retrieve-as-bitwise is true; `  \x60col\x60 SET('a','b'),`
does not, so it is false; `  \x60col\x60 set(1,2),` has integer arguments, so
no column is produced at all. -/
theorem c9_enum_set_witness :
    (∃ col st,
      _parse_column mysqlPreparer sampleRegistry "  `col` SET('a','','b'),"
        initState = some st ∧
      st.columns = initState.columns ++ [col] ∧
      col.type.args = [TypeArg.str "a", TypeArg.str "", TypeArg.str "b"] ∧
      col.type.retrieve_as_bitwise = true) ∧
    (∃ col st,
      _parse_column mysqlPreparer sampleRegistry "  `col` SET('a','b'),"
        initState = some st ∧
      st.columns = initState.columns ++ [col] ∧
      col.type.args = [TypeArg.str "a", TypeArg.str "b"] ∧
      col.type.retrieve_as_bitwise = false) ∧
    _parse_column mysqlPreparer sampleRegistry "  `col` set(1,2)," initState =
      none := by
  refine ⟨?_, ?_, ?_⟩
  · obtain ⟨col, st, _, h1, h2, h3, h4⟩ :=
      (c9_enum_set_values sampleRegistry "  `col` SET('a','','b'),"
        { name := "col", coltype := "SET", arg := some "'a','','b'" }
        initState (by decide) (Or.inr (by decide)) (by decide)).1
        [TypeArg.str "a", TypeArg.str "", TypeArg.str "b"] (by decide)
    exact ⟨col, st, h1, h2, h3, by rw [h4]; decide⟩
  · obtain ⟨col, st, _, h1, h2, h3, h4⟩ :=
      (c9_enum_set_values sampleRegistry "  `col` SET('a','b'),"
        { name := "col", coltype := "SET", arg := some "'a','b'" }
        initState (by decide) (Or.inr (by decide)) (by decide)).1
        [TypeArg.str "a", TypeArg.str "b"] (by decide)
    exact ⟨col, st, h1, h2, h3, by rw [h4]; decide⟩
  · exact (c9_enum_set_values sampleRegistry "  `col` set(1,2),"
      { name := "col", coltype := "set", arg := some "1,2" }
      initState (by decide) (Or.inr (by decide)) (by decide)).2 (by decide)

theorem hasPre_head_excl {p q : Char} {ps qs l : Chars} (hne : q ≠ p)
    (h : hasPre (p :: ps) l = true) : hasPre (q :: qs) l = false := by
  cases l with
  | nil => cases h
  | cons c cs =>
    simp only [hasPre, Bool.and_eq_true, decide_eq_true_eq] at h
    simp only [hasPre, Bool.and_eq_false_iff, decide_eq_false_iff_not]
    exact Or.inl (h.1 ▸ hne)

/-- **C10.** For every input line beginning with `CREATE ` that does not
match the table-header pattern, the dispatcher leaves the state unchanged:
`tableName` stays unset and no warning is emitted; `tableName` is set, to
the identifier-unescaped captured name, exactly when the header pattern
matches. -/
theorem c10_header_fallthrough (reg : Registry) (dn line : String)
    (s : ReflectedState)
    (h : hasPre "CREATE ".toList line.toList = true) :
    (matchTableName mysqlPreparer line.toList = none →
      processLine mysqlPreparer reg dn s line = some s) ∧
    (∀ nm : Chars, matchTableName mysqlPreparer line.toList = some nm →
      processLine mysqlPreparer reg dn s line =
        some ({ s with
          table_name := some (mysqlPreparer.unescape_identifier (String.mk nm)) })) := by
  have h' : hasPre ('C' :: "REATE ".toList) line.toList = true := h
  have h1 : hasPre ("  ".toList ++ [mysqlPreparer.initial_quote]) line.toList = false :=
    hasPre_head_excl (by decide) h'
  have h2 : hasPre ") ".toList line.toList = false :=
    hasPre_head_excl (by decide) h'
  have h3 : line ≠ ")" := by
    intro hb
    subst hb
    exact absurd h (by decide)
  constructor
  · intro hm
    unfold processLine
    rw [h1, h2, h]
    rw [if_neg (by decide : ¬(false = true)), if_neg (by decide : ¬(false = true)),
      if_neg h3, if_pos rfl]
    unfold _parse_table_name
    rw [hm]
  · intro nm hm
    unfold processLine
    rw [h1, h2, h]
    rw [if_neg (by decide : ¬(false = true)), if_neg (by decide : ¬(false = true)),
      if_neg h3, if_pos rfl]
    unfold _parse_table_name
    rw [hm]

/-- Witness for C10: `CREATE TABLE oops (` (unquoted name, header pattern
fails) leaves the state untouched with no warning; `CREATE TABLE \x60t\x60 (`
sets the table name. -/
theorem c10_header_witness :
    processLine mysqlPreparer sampleRegistry "mysql" initState
      "CREATE TABLE oops (" = some initState ∧
    processLine mysqlPreparer sampleRegistry "mysql" initState
      "CREATE TABLE `t` (" =
        some ({ initState with table_name := some "t" }) := by
  constructor
  · exact (c10_header_fallthrough sampleRegistry "mysql" "CREATE TABLE oops ("
      initState (by decide)).1 (by decide)
  · have h := (c10_header_fallthrough sampleRegistry "mysql" "CREATE TABLE `t` ("
      initState (by decide)).2 ['t'] (by decide)
    rw [h]
    rfl

/-- **C5.** The table-option scanner processes registered patterns
sequentially over a working copy of the line: scanning a concatenated
pattern list is scanning the first part and feeding its residual options
and text to the second; one step searches (it skips a non-matching head
character rather than failing) and, on a match, records the lowercased
directive mapped to the cleaned value and strips every occurrence of the
match from the remaining text before the next pattern runs. -/
theorem c5_scan_sequential :
    (∀ (ps qs : List OptPattern) (opts : List (String × String)) (rest : Chars),
      scanOpts (ps ++ qs) opts rest =
        scanOpts qs (scanOpts ps opts rest).1 (scanOpts ps opts rest).2) ∧
    (∀ (p : OptPattern) (opts : List (String × String)) (rest : Chars),
      scanOpts [p] opts rest =
        match optSearch p rest with
        | none => (opts, rest)
        | some (_, m, _) =>
          (dictInsert (lowerStr m.directive) (optClean p.kind m.val) opts,
           optSubAll p rest)) ∧
    (∀ (p : OptPattern) (c : Char) (rest : Chars),
      optMatchAt p (c :: rest) = none →
      optSearch p (c :: rest) = (optSearch p rest).map fun r => (c :: r.1, r.2)) := by
  have scanOpts_cons : ∀ (p : OptPattern) (ps : List OptPattern) opts rest,
      scanOpts (p :: ps) opts rest =
        match optSearch p rest with
        | none => scanOpts ps opts rest
        | some (_, m, _) =>
          scanOpts ps (dictInsert (lowerStr m.directive) (optClean p.kind m.val) opts)
            (optSubAll p rest) := fun _ _ _ _ => rfl
  have optSearchF_succ : ∀ (p : OptPattern) (f : Nat) (l : Chars),
      optSearchF p (f + 1) l =
        match optMatchAt p l with
        | some m => some ([], m, l.drop m.consumed)
        | none =>
          match l with
          | [] => none
          | c :: cs => (optSearchF p f cs).map fun r => (c :: r.1, r.2) :=
    fun _ _ _ => rfl
  refine ⟨?_, ?_, ?_⟩
  · intro ps
    induction ps with
    | nil => intro qs opts rest; rfl
    | cons p ps ih =>
      intro qs opts rest
      cases hs : optSearch p rest with
      | none =>
        rw [List.cons_append, scanOpts_cons, hs, scanOpts_cons, hs]
        exact ih qs opts rest
      | some r =>
        obtain ⟨pre, m, post⟩ := r
        rw [List.cons_append, scanOpts_cons, hs, scanOpts_cons, hs]
        exact ih qs _ _
  · intro p opts rest
    rw [scanOpts_cons]
    cases hs : optSearch p rest with
    | none => rfl
    | some r => obtain ⟨pre, m, post⟩ := r; rfl
  · intro p c rest hm
    show optSearchF p (rest.length + 1 + 1) (c :: rest) = _
    rw [optSearchF_succ, hm]
    rfl

/-- Witness for C5: one scan step on `) ENGINE=InnoDB` records the
lowercased directive and strips the match, and the search is not anchored
(the leading `) ` is skipped). -/
theorem c5_scan_witness :
    scanOpts [{ directive := "ENGINE", kind := OptKind.word }] []
        ") ENGINE=InnoDB".toList =
      ([("engine", "InnoDB")], ") ".toList) ∧
    optSearch { directive := "ENGINE", kind := OptKind.word }
        (')' :: " ENGINE=InnoDB".toList) =
      (optSearch { directive := "ENGINE", kind := OptKind.word }
        " ENGINE=InnoDB".toList).map (fun r => (')' :: r.1, r.2)) := by
  constructor
  · rw [c5_scan_sequential.2.1]
    decide
  · exact c5_scan_sequential.2.2 _ ')' _ (by decide)

theorem mem_dictInsert (kv : String × String) (k v : String) :
    ∀ l : List (String × String), kv ∈ dictInsert k v l → kv.1 = k ∨ kv ∈ l := by
  intro l
  induction l with
  | nil =>
    intro h
    unfold dictInsert at h
    have h' := List.mem_singleton.mp h
    exact Or.inl (by rw [h'])
  | cons e rest ih =>
    obtain ⟨k', v'⟩ := e
    intro h
    unfold dictInsert at h
    by_cases he : k' = k
    · rw [if_pos he] at h
      rcases List.mem_cons.mp h with h' | h'
      · exact Or.inl (by rw [h']; exact he)
      · exact Or.inr (List.mem_cons_of_mem _ h')
    · rw [if_neg he] at h
      rcases List.mem_cons.mp h with h' | h'
      · exact Or.inr (List.mem_cons.mpr (Or.inl h'))
      · rcases ih h' with h'' | h''
        · exact Or.inl h''
        · exact Or.inr (List.mem_cons_of_mem _ h'')

theorem dictInsert_keys_nodup (k v : String) :
    ∀ l : List (String × String), (dictKeys l).Nodup →
      (dictKeys (dictInsert k v l)).Nodup ∧
      ∀ x, x ∈ dictKeys (dictInsert k v l) → x = k ∨ x ∈ dictKeys l := by
  intro l
  induction l with
  | nil =>
    intro _
    refine ⟨List.nodup_singleton k, ?_⟩
    intro x hx
    exact Or.inl (List.mem_singleton.mp hx)
  | cons e rest ih =>
    obtain ⟨k', v'⟩ := e
    intro h
    simp only [dictKeys, List.map_cons, List.nodup_cons] at h
    by_cases he : k' = k
    · unfold dictInsert
      rw [if_pos he]
      refine ⟨?_, ?_⟩
      · simp only [dictKeys, List.map_cons, List.nodup_cons]
        exact h
      · intro x hx
        exact Or.inr hx
    · unfold dictInsert
      rw [if_neg he]
      obtain ⟨ihn, ihm⟩ := ih h.2
      refine ⟨?_, ?_⟩
      · simp only [dictKeys, List.map_cons, List.nodup_cons]
        refine ⟨?_, ihn⟩
        intro hk'
        rcases ihm k' hk' with h' | h'
        · exact he h'
        · exact h.1 h'
      · intro x hx
        simp only [dictKeys, List.map_cons, List.mem_cons] at hx ⊢
        rcases hx with hx | hx
        · exact Or.inr (Or.inl hx)
        · rcases ihm x hx with h' | h'
          · exact Or.inl h'
          · exact Or.inr (Or.inr h')

theorem scanOpts_keys_nodup :
    ∀ (ps : List OptPattern) (opts : List (String × String)) (rest : Chars),
      (dictKeys opts).Nodup → (dictKeys (scanOpts ps opts rest).1).Nodup := by
  intro ps
  induction ps with
  | nil => intro opts rest h; exact h
  | cons p ps ih =>
    intro opts rest h
    show (dictKeys (scanOpts (p :: ps) opts rest).1).Nodup
    rw [show scanOpts (p :: ps) opts rest =
        (match optSearch p rest with
         | none => scanOpts ps opts rest
         | some (_, m, _) =>
           scanOpts ps (dictInsert (lowerStr m.directive) (optClean p.kind m.val) opts)
             (optSubAll p rest)) from rfl]
    cases hs : optSearch p rest with
    | none => exact ih opts rest h
    | some r =>
      obtain ⟨pre, m, post⟩ := r
      exact ih _ _ (dictInsert_keys_nodup _ _ _ h).1

theorem dictErase_sublist (k : String) :
    ∀ l : List (String × String), List.Sublist (dictErase k l) l := by
  intro l
  induction l with
  | nil => exact List.Sublist.refl _
  | cons e rest ih =>
    obtain ⟨k', v'⟩ := e
    unfold dictErase
    by_cases he : k' = k
    · rw [if_pos he]
      exact List.sublist_cons_self _ _
    · rw [if_neg he]
      exact List.Sublist.cons₂ _ ih

theorem mem_dictErase (kv : String × String) (k : String)
    (l : List (String × String)) (h : kv ∈ dictErase k l) : kv ∈ l :=
  (dictErase_sublist k l).mem h

theorem dictErase_keys_nodup (k : String) (l : List (String × String))
    (h : (dictKeys l).Nodup) : (dictKeys (dictErase k l)).Nodup :=
  List.Nodup.sublist (List.Sublist.map Prod.fst (dictErase_sublist k l)) h

theorem dictErase_ne (k : String) :
    ∀ l : List (String × String), (dictKeys l).Nodup →
      ∀ kv ∈ dictErase k l, kv.1 ≠ k := by
  intro l
  induction l with
  | nil => intro _ kv hkv; cases hkv
  | cons e rest ih =>
    obtain ⟨k', v'⟩ := e
    intro h kv hkv
    simp only [dictKeys, List.map_cons, List.nodup_cons] at h
    unfold dictErase at hkv
    by_cases he : k' = k
    · rw [if_pos he] at hkv
      intro hk
      apply h.1
      rw [he, ← hk]
      exact List.mem_map_of_mem Prod.fst hkv
    · rw [if_neg he] at hkv
      rcases List.mem_cons.mp hkv with h' | h'
      · rw [h']
        exact he
      · exact ih h.2 kv h'

theorem mem_foldl_dictInsert (dn : String) :
    ∀ (l : List (String × String)) (t0 : List (String × String))
      (kv : String × String),
      kv ∈ l.foldl (fun t e => dictInsert (dn ++ "_" ++ e.1) e.2 t) t0 →
      kv ∈ t0 ∨ ∃ e ∈ l, kv.1 = dn ++ "_" ++ e.1 := by
  intro l
  induction l with
  | nil => intro t0 kv h; exact Or.inl h
  | cons e rest ih =>
    intro t0 kv h
    rcases ih _ kv h with h' | ⟨e', he', hk⟩
    · rcases mem_dictInsert kv _ _ _ h' with hk | hin
      · exact Or.inr ⟨e, List.mem_cons_self _ _, hk⟩
      · exact Or.inl hin
    · exact Or.inr ⟨e', List.mem_cons_of_mem _ he', hk⟩

theorem popsAndStash (dn : String) (options t0 : List (String × String))
    (hnd : (dictKeys options).Nodup) (kv : String × String)
    (h : kv ∈ (dictErase "index directory" (dictErase "data directory"
          (dictErase "auto_increment" options))).foldl
        (fun t e => dictInsert (dn ++ "_" ++ e.1) e.2 t) t0) :
    kv ∈ t0 ∨ ∃ k, kv.1 = dn ++ "_" ++ k ∧ k ≠ "auto_increment" ∧
      k ≠ "data directory" ∧ k ≠ "index directory" := by
  rcases mem_foldl_dictInsert dn _ t0 kv h with h' | ⟨e, he, hk⟩
  · exact Or.inl h'
  · have hnd1 := dictErase_keys_nodup "auto_increment" _ hnd
    have hnd2 := dictErase_keys_nodup "data directory" _ hnd1
    have h3 : e.1 ≠ "index directory" := dictErase_ne _ _ hnd2 e he
    have he2 := mem_dictErase e _ _ he
    have h2 : e.1 ≠ "data directory" := dictErase_ne _ _ hnd1 e he2
    have he1 := mem_dictErase e _ _ he2
    have h1 : e.1 ≠ "auto_increment" := dictErase_ne _ _ hnd e he1
    exact Or.inr ⟨e.1, hk, h1, h2, h3⟩

/-- **C4.** For every table-options line, every option entry added to the
state mapping is stored under a key prefixed with the dialect name whose
unprefixed directive is none of `auto_increment`, `data directory`,
`index directory` (so those are absent even when present in the line);
and the `ENGINE=InnoDB DEFAULT CHARSET=utf8 COMMENT='hi'` directives are
all recovered in every declaration order. -/
theorem c4_table_option_keys :
    (∀ (dn line : String) (s : ReflectedState),
      ∀ kv ∈ (_parse_table_options dn line s).table_options,
        kv ∈ s.table_options ∨
        ∃ k, kv.1 = dn ++ "_" ++ k ∧ k ≠ "auto_increment" ∧
          k ≠ "data directory" ∧ k ≠ "index directory") ∧
    (∀ ln ∈ ([") ENGINE=InnoDB DEFAULT CHARSET=utf8 COMMENT='hi'",
              ") ENGINE=InnoDB COMMENT='hi' DEFAULT CHARSET=utf8",
              ") DEFAULT CHARSET=utf8 ENGINE=InnoDB COMMENT='hi'",
              ") DEFAULT CHARSET=utf8 COMMENT='hi' ENGINE=InnoDB",
              ") COMMENT='hi' ENGINE=InnoDB DEFAULT CHARSET=utf8",
              ") COMMENT='hi' DEFAULT CHARSET=utf8 ENGINE=InnoDB"] : List String),
      dictFind "mysql_engine"
          (_parse_table_options "mysql" ln initState).table_options = some "InnoDB" ∧
      dictFind "mysql_default charset"
          (_parse_table_options "mysql" ln initState).table_options = some "utf8" ∧
      dictFind "mysql_comment"
          (_parse_table_options "mysql" ln initState).table_options = some "hi") ∧
    (dictFind "mysql_auto_increment"
        (_parse_table_options "mysql"
          ") ENGINE=InnoDB AUTO_INCREMENT=5 DEFAULT CHARSET=utf8 COMMENT='hi'"
          initState).table_options = none) := by
  refine ⟨?_, by decide, by decide⟩
  intro dn line s kv hkv
  have hnd : (dictKeys (if line = "" || line = ")" then
      ([] : List (String × String))
      else (scanOpts _pr_options [] line.toList).1)).Nodup := by
    split
    · exact List.nodup_nil
    · exact scanOpts_keys_nodup _ _ _ List.nodup_nil
  exact popsAndStash dn _ s.table_options hnd kv hkv

/-- Witness for C4: instantiating the universal part on the entry stored
for `) ENGINE=InnoDB`, and the concrete recovered values. -/
theorem c4_table_option_witness :
    (("mysql_engine", "InnoDB") ∈ initState.table_options ∨
      ∃ k, ("mysql_engine", "InnoDB").1 = "mysql" ++ "_" ++ k ∧
        k ≠ "auto_increment" ∧ k ≠ "data directory" ∧ k ≠ "index directory") ∧
    dictFind "mysql_engine"
      (_parse_table_options "mysql" ") COMMENT='hi' DEFAULT CHARSET=utf8 ENGINE=InnoDB"
        initState).table_options = some "InnoDB" := by
  constructor
  · exact c4_table_option_keys.1 "mysql" ") ENGINE=InnoDB" initState
      ("mysql_engine", "InnoDB") (by decide)
  · exact (c4_table_option_keys.2.1 ") COMMENT='hi' DEFAULT CHARSET=utf8 ENGINE=InnoDB"
      (by decide)).1

/-- The dispatcher reduced on a line that reaches the constraint branch. -/
theorem processLine_constraints (reg : Registry) (dn line : String)
    (s : ReflectedState) (hroute : routesToConstraints mysqlPreparer line = true) :
    processLine mysqlPreparer reg dn s line =
      (match _parse_constraints mysqlPreparer line with
       | .unknown ln =>
         some ({ s with warnings := s.warnings ++ ["Unknown schema content: " ++ pyRepr ln] })
       | .key k => some ({ s with keys := s.keys ++ [k] })
       | .fk k => some ({ s with fk_constraints := s.fk_constraints ++ [k] })
       | .ck k => some ({ s with ck_constraints := s.ck_constraints ++ [k] })
       | .partitionLine _ => some s) := by
  simp only [routesToConstraints, Bool.and_eq_true, Bool.not_eq_true'] at hroute
  obtain ⟨⟨⟨⟨r1, r2⟩, r3⟩, r4⟩, r5⟩ := hroute
  unfold processLine
  rw [r1, r2, r4]
  rw [if_neg (by decide : ¬(false = true)), if_neg (by decide : ¬(false = true)),
    if_neg (of_decide_eq_false r3), if_neg (by decide : ¬(false = true)),
    if_neg (of_decide_eq_false r5)]

/-- **C2 counterexample.** The claim says a PARTITION line's text is
retained verbatim as an opaque marker in the parse output.  On the code,
parsing a statement consisting of exactly such a line succeeds and returns
a ReflectedState identical to the freshly allocated one: no field of the
parse output retains the text (the `("partition", line)` pair returned by
`_parse_constraints` falls into the dispatcher's silent `pass` arm). -/
theorem c2_partition_counterexample :
    partitionHit "PARTITION BY HASH (`col`)".toList = true ∧
    parse mysqlPreparer sampleRegistry "mysql" "PARTITION BY HASH (`col`)" none =
      some initState := by
  constructor
  · decide
  · decide

/-- **C2 amended.** For every line containing the token PARTITION (or
SUBPARTITION, which contains it) and matching no earlier
key/foreign-key/check pattern, the constraint classifier recognizes the
line and returns its entire text verbatim as the opaque
`("partition", line)` marker; the main parse loop then leaves the state
unchanged — the text is merged into no structured list and not retained
in the ParseResult. -/
theorem c2_partition_punt (line : String)
    (hpart : partitionHit line.toList = true)
    (hkey : matchKey mysqlPreparer line.toList = none)
    (hfk : matchFk mysqlPreparer line.toList = none)
    (hck : matchCk mysqlPreparer line.toList = none) :
    _parse_constraints mysqlPreparer line = ConstraintParse.partitionLine line ∧
    (routesToConstraints mysqlPreparer line = true →
      ∀ (reg : Registry) (dn : String) (s : ReflectedState),
        processLine mysqlPreparer reg dn s line = some s) := by
  have hc : _parse_constraints mysqlPreparer line =
      ConstraintParse.partitionLine line := by
    unfold _parse_constraints
    rw [hkey, hfk, hck, hpart]
    rfl
  refine ⟨hc, ?_⟩
  intro hroute reg dn s
  rw [processLine_constraints reg dn line s hroute, hc]

/-- Witness for the amended C2 at a concrete version-gated partition line. -/
theorem c2_partition_witness :
    _parse_constraints mysqlPreparer "/*!50100 PARTITION BY HASH (`col`) */" =
      ConstraintParse.partitionLine "/*!50100 PARTITION BY HASH (`col`) */" ∧
    processLine mysqlPreparer sampleRegistry "mysql" initState
      "/*!50100 PARTITION BY HASH (`col`) */" = some initState := by
  have h := c2_partition_punt "/*!50100 PARTITION BY HASH (`col`) */"
    (by decide) (by decide) (by decide) (by decide)
  exact ⟨h.1, h.2 (by decide) sampleRegistry "mysql" initState⟩

theorem stepLine_none (P : Preparer) (reg : Registry) (dn : String) :
    ∀ ls : List String, List.foldl (stepLine P reg dn) none ls = none := by
  intro ls
  induction ls with
  | nil => rfl
  | cons l ls ih => exact ih

theorem foldl_stepLine_cons (P : Preparer) (reg : Registry) (dn : String)
    (s : ReflectedState) (l : String) (ls : List String) :
    List.foldl (stepLine P reg dn) (some s) (l :: ls) =
      List.foldl (stepLine P reg dn) (processLine P reg dn s l) ls := rfl

theorem buildColumn_warnings (reg : Registry) (m : ColMatch) (s : ReflectedState) :
    ∀ t, buildColumn reg m s = some t → ∃ w, t.warnings = s.warnings ++ w := by
  unfold buildColumn
  cases buildCol reg m with
  | none => intro t ht; cases ht
  | some col =>
    intro t ht
    injection ht with ht2
    rw [← ht2]
    exact ⟨buildColWarn reg m, rfl⟩

theorem buildColumn_core_congr (reg : Registry) (m : ColMatch)
    (s s' : ReflectedState) (h : coreOf s = coreOf s') :
    (buildColumn reg m s = none ∧ buildColumn reg m s' = none) ∨
    (∃ t t', buildColumn reg m s = some t ∧ buildColumn reg m s' = some t' ∧
      coreOf t = coreOf t') := by
  simp only [coreOf, Prod.mk.injEq] at h
  obtain ⟨h1, h2, h3, h4, h5, h6, h7⟩ := h
  unfold buildColumn
  cases buildCol reg m with
  | none => exact Or.inl ⟨rfl, rfl⟩
  | some col =>
    refine Or.inr ⟨_, _, rfl, rfl, ?_⟩
    simp [coreOf, h1, h2, h3, h4, h5, h6, h7]

theorem parse_column_warnings (P : Preparer) (reg : Registry) (line : String)
    (s : ReflectedState) :
    ∀ t, _parse_column P reg line s = some t → ∃ w, t.warnings = s.warnings ++ w := by
  unfold _parse_column
  cases matchColumnFull P line.toList with
  | some m => exact buildColumn_warnings reg m s
  | none =>
    cases matchColumnLoose P line.toList with
    | some m =>
      intro t ht
      obtain ⟨w, hw⟩ := buildColumn_warnings reg m _ t ht
      refine ⟨["Incomplete reflection of column definition " ++ pyRepr line] ++ w, ?_⟩
      rw [hw]
      show (s.warnings ++ _) ++ w = _
      rw [List.append_assoc]
    | none =>
      intro t ht
      injection ht with ht2
      rw [← ht2]
      exact ⟨_, rfl⟩

theorem processLine_warnings (P : Preparer) (reg : Registry) (dn : String)
    (s : ReflectedState) (line : String) :
    ∀ t, processLine P reg dn s line = some t → ∃ w, t.warnings = s.warnings ++ w := by
  unfold processLine
  by_cases c1 : hasPre ("  ".toList ++ [P.initial_quote]) line.toList = true
  · rw [if_pos c1]
    exact parse_column_warnings P reg line s
  · rw [if_neg c1]
    by_cases c2 : hasPre ") ".toList line.toList = true
    · rw [if_pos c2]
      intro t ht
      injection ht with ht2
      rw [← ht2]
      exact ⟨[], (List.append_nil _).symm⟩
    · rw [if_neg c2]
      by_cases c3 : line = ")"
      · rw [if_pos c3]
        intro t ht
        injection ht with ht2
        rw [← ht2]
        exact ⟨[], (List.append_nil _).symm⟩
      · rw [if_neg c3]
        by_cases c4 : hasPre "CREATE ".toList line.toList = true
        · rw [if_pos c4]
          unfold _parse_table_name
          cases matchTableName P line.toList with
          | some nm =>
            intro t ht
            injection ht with ht2
            rw [← ht2]
            exact ⟨[], (List.append_nil _).symm⟩
          | none =>
            intro t ht
            injection ht with ht2
            rw [← ht2]
            exact ⟨[], (List.append_nil _).symm⟩
        · rw [if_neg c4]
          by_cases c5 : line = ""
          · rw [if_pos c5]
            intro t ht
            injection ht with ht2
            rw [← ht2]
            exact ⟨[], (List.append_nil _).symm⟩
          · rw [if_neg c5]
            cases _parse_constraints P line with
            | unknown ln =>
              intro t ht
              injection ht with ht2
              rw [← ht2]
              exact ⟨_, rfl⟩
            | key k =>
              intro t ht
              injection ht with ht2
              rw [← ht2]
              exact ⟨[], (List.append_nil _).symm⟩
            | fk k =>
              intro t ht
              injection ht with ht2
              rw [← ht2]
              exact ⟨[], (List.append_nil _).symm⟩
            | ck k =>
              intro t ht
              injection ht with ht2
              rw [← ht2]
              exact ⟨[], (List.append_nil _).symm⟩
            | partitionLine ln =>
              intro t ht
              injection ht with ht2
              rw [← ht2]
              exact ⟨[], (List.append_nil _).symm⟩

theorem processLine_core_congr (P : Preparer) (reg : Registry) (dn : String)
    (line : String) (s s' : ReflectedState) (h : coreOf s = coreOf s') :
    (processLine P reg dn s line = none ∧ processLine P reg dn s' line = none) ∨
    (∃ t t', processLine P reg dn s line = some t ∧
      processLine P reg dn s' line = some t' ∧ coreOf t = coreOf t') := by
  simp only [coreOf, Prod.mk.injEq] at h
  obtain ⟨h1, h2, h3, h4, h5, h6, h7⟩ := h
  unfold processLine
  by_cases c1 : hasPre ("  ".toList ++ [P.initial_quote]) line.toList = true
  · rw [if_pos c1, if_pos c1]
    unfold _parse_column
    cases matchColumnFull P line.toList with
    | some m =>
      exact buildColumn_core_congr reg m s s'
        (by simp [coreOf, h1, h2, h3, h4, h5, h6, h7])
    | none =>
      cases matchColumnLoose P line.toList with
      | some m =>
        exact buildColumn_core_congr reg m _ _
          (by simp [coreOf, h1, h2, h3, h4, h5, h6, h7])
      | none =>
        refine Or.inr ⟨_, _, rfl, rfl, ?_⟩
        simp [coreOf, h1, h2, h3, h4, h5, h6, h7]
  · rw [if_neg c1, if_neg c1]
    by_cases c2 : hasPre ") ".toList line.toList = true
    · rw [if_pos c2, if_pos c2]
      refine Or.inr ⟨_, _, rfl, rfl, ?_⟩
      unfold _parse_table_options
      simp [coreOf, h1, h2, h3, h4, h5, h6, h7]
    · rw [if_neg c2, if_neg c2]
      by_cases c3 : line = ")"
      · rw [if_pos c3, if_pos c3]
        exact Or.inr ⟨_, _, rfl, rfl, by simp [coreOf, h1, h2, h3, h4, h5, h6, h7]⟩
      · rw [if_neg c3, if_neg c3]
        by_cases c4 : hasPre "CREATE ".toList line.toList = true
        · rw [if_pos c4, if_pos c4]
          unfold _parse_table_name
          cases matchTableName P line.toList with
          | some nm =>
            refine Or.inr ⟨_, _, rfl, rfl, ?_⟩
            simp [coreOf, h1, h2, h3, h4, h5, h6, h7]
          | none =>
            refine Or.inr ⟨_, _, rfl, rfl, ?_⟩
            simp [coreOf, h1, h2, h3, h4, h5, h6, h7]
        · rw [if_neg c4, if_neg c4]
          by_cases c5 : line = ""
          · rw [if_pos c5, if_pos c5]
            exact Or.inr ⟨_, _, rfl, rfl, by simp [coreOf, h1, h2, h3, h4, h5, h6, h7]⟩
          · rw [if_neg c5, if_neg c5]
            cases _parse_constraints P line with
            | unknown ln =>
              refine Or.inr ⟨_, _, rfl, rfl, ?_⟩
              simp [coreOf, h1, h2, h3, h4, h5, h6, h7]
            | key k =>
              refine Or.inr ⟨_, _, rfl, rfl, ?_⟩
              simp [coreOf, h1, h2, h3, h4, h5, h6, h7]
            | fk k =>
              refine Or.inr ⟨_, _, rfl, rfl, ?_⟩
              simp [coreOf, h1, h2, h3, h4, h5, h6, h7]
            | ck k =>
              refine Or.inr ⟨_, _, rfl, rfl, ?_⟩
              simp [coreOf, h1, h2, h3, h4, h5, h6, h7]
            | partitionLine ln =>
              refine Or.inr ⟨_, _, rfl, rfl, ?_⟩
              simp [coreOf, h1, h2, h3, h4, h5, h6, h7]

theorem foldl_core_congr (P : Preparer) (reg : Registry) (dn : String)
    (ls : List String) :
    ∀ s s' : ReflectedState, coreOf s = coreOf s' →
      (List.foldl (stepLine P reg dn) (some s) ls = none ∧
       List.foldl (stepLine P reg dn) (some s') ls = none) ∨
      (∃ t t', List.foldl (stepLine P reg dn) (some s) ls = some t ∧
        List.foldl (stepLine P reg dn) (some s') ls = some t' ∧
        coreOf t = coreOf t') := by
  induction ls with
  | nil => intro s s' h; exact Or.inr ⟨s, s', rfl, rfl, h⟩
  | cons l ls ih =>
    intro s s' h
    rcases processLine_core_congr P reg dn l s s' h with ⟨ha, hb⟩ | ⟨t, t', ha, hb, hc⟩
    · left
      constructor
      · rw [foldl_stepLine_cons, ha]
        exact stepLine_none P reg dn ls
      · rw [foldl_stepLine_cons, hb]
        exact stepLine_none P reg dn ls
    · rcases ih t t' hc with ⟨x1, x2⟩ | ⟨u, u', x1, x2, x3⟩
      · left
        constructor
        · rw [foldl_stepLine_cons, ha]
          exact x1
        · rw [foldl_stepLine_cons, hb]
          exact x2
      · right
        refine ⟨u, u', ?_, ?_, x3⟩
        · rw [foldl_stepLine_cons, ha]
          exact x1
        · rw [foldl_stepLine_cons, hb]
          exact x2

theorem foldl_warnings_mono (P : Preparer) (reg : Registry) (dn : String)
    (ls : List String) :
    ∀ (s out : ReflectedState),
      List.foldl (stepLine P reg dn) (some s) ls = some out →
      ∃ w, out.warnings = s.warnings ++ w := by
  induction ls with
  | nil =>
    intro s out hout
    injection hout with h2
    rw [← h2]
    exact ⟨[], (List.append_nil _).symm⟩
  | cons l ls ih =>
    intro s out hout
    rw [foldl_stepLine_cons] at hout
    cases hp : processLine P reg dn s l with
    | none =>
      rw [hp, stepLine_none P reg dn ls] at hout
      cases hout
    | some t =>
      rw [hp] at hout
      obtain ⟨w1, hw1⟩ := processLine_warnings P reg dn s l t hp
      obtain ⟨w2, hw2⟩ := ih t out hout
      exact ⟨w1 ++ w2, by rw [hw2, hw1, List.append_assoc]⟩

/-- **C3 counterexample.** The claim says `parse` never aborts: one
grammarless line still yields a ParseResult built from the other lines.
On `"  \x60c\x60 set(1,2)\n  GARBAGE"` exactly one line (`  GARBAGE`) matches no
grammar and the other is a well-formed column line, yet the program raises
`TypeError` inside `_strip_values` (reflection.py:554) on the column's
integer SET arguments, and `parse` aborts with nothing returned at all. -/
theorem c3_unknown_line_counterexample :
    splitLines "  `c` set(1,2)\n  GARBAGE" = ["  `c` set(1,2)", "  GARBAGE"] ∧
    (matchColumnFull mysqlPreparer "  `c` set(1,2)".toList).isSome = true ∧
    routesToConstraints mysqlPreparer "  GARBAGE" = true ∧
    _parse_constraints mysqlPreparer "  GARBAGE" =
      ConstraintParse.unknown "  GARBAGE" ∧
    parse mysqlPreparer sampleRegistry "mysql" "  `c` set(1,2)\n  GARBAGE" none =
      none :=
  ⟨by decide, by decide, by decide, by decide, by decide⟩

/-- **C3 amended.** If exactly one line of a statement matches no grammar
and the remaining lines parse without raising, `parse` returns a state
carrying exactly the columns, keys, constraints, options, and table name
obtained from the remaining lines, plus a warning quoting the offending
line verbatim.  (Unconditional tolerance is refuted: a column line whose
ENUM/SET arguments are integers raises `TypeError` and aborts `parse`.) -/
theorem c3_unknown_line_tolerance (reg : Registry) (dn stmt : String)
    (cs : Option String) (pre post : List String) (L : String)
    (hsplit : splitLines stmt = pre ++ L :: post)
    (hroute : routesToConstraints mysqlPreparer L = true)
    (hunk : _parse_constraints mysqlPreparer L = ConstraintParse.unknown L)
    (hrest : parseLines mysqlPreparer reg dn (pre ++ post) cs ≠ none) :
    ∃ full rest2, parse mysqlPreparer reg dn stmt cs = some full ∧
      parseLines mysqlPreparer reg dn (pre ++ post) cs = some rest2 ∧
      full.columns = rest2.columns ∧
      full.keys = rest2.keys ∧
      full.fk_constraints = rest2.fk_constraints ∧
      full.ck_constraints = rest2.ck_constraints ∧
      full.table_options = rest2.table_options ∧
      full.table_name = rest2.table_name ∧
      ("Unknown schema content: " ++ pyRepr L) ∈ full.warnings := by
  cases hr0 : parseLines mysqlPreparer reg dn (pre ++ post) cs with
  | none => exact absurd hr0 hrest
  | some rest2 =>
    have hr : List.foldl (stepLine mysqlPreparer reg dn)
        (some { charset := cs }) (pre ++ post) = some rest2 := hr0
    rw [List.foldl_append] at hr
    cases hpre : List.foldl (stepLine mysqlPreparer reg dn)
        (some { charset := cs }) pre with
    | none =>
      rw [hpre, stepLine_none mysqlPreparer reg dn post] at hr
      cases hr
    | some sp =>
      rw [hpre] at hr
      have hL : processLine mysqlPreparer reg dn sp L =
          some ({ sp with warnings :=
            sp.warnings ++ ["Unknown schema content: " ++ pyRepr L] }) := by
        rw [processLine_constraints reg dn L sp hroute, hunk]
      rcases foldl_core_congr mysqlPreparer reg dn post
          ({ sp with warnings :=
            sp.warnings ++ ["Unknown schema content: " ++ pyRepr L] })
          sp rfl with ⟨hnone1, hnone2⟩ | ⟨t, t', ht, ht', hcore⟩
      · rw [hnone2] at hr
        cases hr
      · rw [ht'] at hr
        injection hr with hr2
        have hparse : parse mysqlPreparer reg dn stmt cs = some t := by
          unfold parse parseLines
          rw [hsplit, List.foldl_append, hpre, foldl_stepLine_cons, hL]
          exact ht
        have hcore2 : coreOf t = coreOf rest2 := by rw [← hr2]; exact hcore
        simp only [coreOf, Prod.mk.injEq] at hcore2
        obtain ⟨g1, g2, g3, g4, g5, g6, _⟩ := hcore2
        obtain ⟨w, hw⟩ := foldl_warnings_mono mysqlPreparer reg dn post _ t ht
        refine ⟨t, rest2, hparse, rfl, g1, g4, g5, g6, g2, g3, ?_⟩
        rw [hw]
        apply List.mem_append_left
        apply List.mem_append_right
        exact List.mem_singleton.mpr rfl

/-- Witness for the amended C3: a four-line statement whose third line
`  GARBAGE` matches no grammar still yields the column from the second
line, and the warning quotes the offending line. -/
theorem c3_unknown_line_witness :
    ∃ full rest2,
      parse mysqlPreparer sampleRegistry "mysql"
        "CREATE TABLE `t` (\n  `id` int NOT NULL,\n  GARBAGE\n) ENGINE=InnoDB"
        none = some full ∧
      parseLines mysqlPreparer sampleRegistry "mysql"
        ["CREATE TABLE `t` (", "  `id` int NOT NULL,", ") ENGINE=InnoDB"]
        none = some rest2 ∧
      full.columns = rest2.columns ∧
      ("Unknown schema content: " ++ pyRepr "  GARBAGE") ∈ full.warnings := by
  obtain ⟨full, rest2, h1, h2, h3, _, _, _, _, _, h9⟩ :=
    c3_unknown_line_tolerance sampleRegistry "mysql"
      "CREATE TABLE `t` (\n  `id` int NOT NULL,\n  GARBAGE\n) ENGINE=InnoDB" none
      ["CREATE TABLE `t` (", "  `id` int NOT NULL,"] [") ENGINE=InnoDB"] "  GARBAGE"
      (by decide) (by decide) (by decide) (by decide)
  exact ⟨full, rest2, h1, h2, h3, h9⟩

theorem charCI_same (c : Char) : charCI c c = true := by
  simp [charCI]

theorem strCI_pre : ∀ (p rest : Chars), strCI p (p ++ rest) = some rest := by
  intro p
  induction p with
  | nil => intro rest; rfl
  | cons c cs ih =>
    intro rest
    show strCI (c :: cs) (c :: (cs ++ rest)) = some rest
    unfold strCI
    rw [if_pos (charCI_same c)]
    exact ih rest

theorem hasPre_pre : ∀ (p rest : Chars), hasPre p (p ++ rest) = true := by
  intro p
  induction p with
  | nil => intro rest; rfl
  | cons c cs ih =>
    intro rest
    show hasPre (c :: cs) (c :: (cs ++ rest)) = true
    unfold hasPre
    simp [ih rest]

theorem takeWhileCh_append (p : Char → Bool) :
    ∀ (a rest : Chars), (∀ c ∈ a, p c = true) →
      (∀ c, rest.head? = some c → p c = false) →
      takeWhileCh p (a ++ rest) = (a, rest) := by
  intro a
  induction a with
  | nil =>
    intro rest _ hr
    cases rest with
    | nil => rfl
    | cons c cs =>
      show takeWhileCh p (c :: cs) = ([], c :: cs)
      unfold takeWhileCh
      rw [hr c rfl]
      simp
  | cons c a' ih =>
    intro rest ha hr
    show takeWhileCh p (c :: (a' ++ rest)) = (c :: a', rest)
    unfold takeWhileCh
    rw [ha c (List.mem_cons_self _ _)]
    rw [ih rest (fun x hx => ha x (List.mem_cons_of_mem _ hx)) hr]
    rfl

theorem takeWhile1_append (p : Char → Bool) (a rest : Chars) (h0 : a ≠ [])
    (ha : ∀ c ∈ a, p c = true)
    (hr : ∀ c, rest.head? = some c → p c = false) :
    takeWhile1 p (a ++ rest) = some (a, rest) := by
  unfold takeWhile1
  rw [takeWhileCh_append p a rest ha hr]
  simp [h0]

theorem sp1_one (rest : Chars) (h : ∀ c, rest.head? = some c → ¬(c = ' ')) :
    sp1 (' ' :: rest) = some rest := by
  have h2 : takeWhileCh (fun c => c = ' ') rest = ([], rest) :=
    takeWhileCh_append _ [] rest (by simp) (fun c hc => by simp [h c hc])
  show some (takeWhileCh (fun c => c = ' ') rest).2 = some rest
  rw [h2]

theorem sp1_none (c : Char) (cs : Chars) (h : ¬(c = ' ')) :
    sp1 (c :: cs) = none := by
  show (if c = ' ' then some (takeWhileCh (fun c => c = ' ') cs).2 else none) = none
  rw [if_neg h]

theorem optcl_skip (l : Chars) (f : Chars → Option (String × Chars))
    (h : ∀ c, l.head? = some c → ¬(c = ' ')) : optcl l f = (none, l) := by
  unfold optcl
  cases l with
  | nil => rfl
  | cons c cs => rw [sp1_none c cs (h c rfl)]

theorem identChars_cons2 (fq : Char) (esc : Chars) (c c' : Char) (cs : Chars) :
    identChars fq esc (c :: c' :: cs) =
      if esc = [c, c'] then
        ((c :: c' :: (identChars fq esc cs).1), (identChars fq esc cs).2)
      else if c = fq then ([], c :: c' :: cs)
      else ((c :: (identChars fq esc (c' :: cs)).1), (identChars fq esc (c' :: cs)).2) :=
  rfl

theorem identChars_clean :
    ∀ nm : Chars, (∀ c ∈ nm, c ≠ bq) →
      ∀ rest : Chars, rest.head? = some ' ' →
      identChars bq [bq, bq] (nm ++ bq :: rest) = (nm, bq :: rest) := by
  intro nm
  induction nm with
  | nil =>
    intro _ rest hrest
    cases rest with
    | nil => cases hrest
    | cons c' cs' =>
      have hc : c' = ' ' := by
        simp only [List.head?_cons, Option.some.injEq] at hrest
        exact hrest
      subst hc
      show identChars bq [bq, bq] (bq :: ' ' :: cs') = ([], bq :: ' ' :: cs')
      rw [identChars_cons2, if_neg (by decide : ¬([bq, bq] = [bq, ' '])), if_pos rfl]
  | cons c nm' ih =>
    intro h rest hrest
    have hc : c ≠ bq := (h c (List.mem_cons_self _ _))
    rw [List.cons_append]
    cases hx : nm' ++ bq :: rest with
    | nil => exact absurd hx (by simp)
    | cons c' cs =>
      have h1 : ¬([bq, bq] = [c, c']) := by
        intro he
        injection he with e1 _
        exact hc e1.symm
      rw [identChars_cons2, if_neg h1, if_neg hc, ← hx,
        ih (fun x hxm => h x (List.mem_cons_of_mem _ hxm)) rest hrest]

theorem qContent_cons2 (c c' : Char) (cs : Chars) :
    qContent (c :: c' :: cs) =
      if c = sq && c' = sq then (qContent cs).map (fun r => (c :: c' :: r.1, r.2))
      else if c = sq then some ([], c' :: cs)
      else (qContent (c' :: cs)).map (fun r => (c :: r.1, r.2)) :=
  rfl

theorem doubleCh_cons_ne (x c : Char) (d : Chars) (h : ¬(c = x)) :
    doubleCh x (c :: d) = c :: doubleCh x d := by
  show (if c = x then c :: c :: doubleCh x d else c :: doubleCh x d) = c :: doubleCh x d
  rw [if_neg h]

theorem qContent_doubled :
    ∀ d tail : Chars, (∀ c, tail.head? = some c → c ≠ sq) →
      qContent (doubleCh sq d ++ sq :: tail) = some (doubleCh sq d, tail) := by
  intro d
  induction d with
  | nil =>
    intro tail ht
    show qContent (sq :: tail) = some ([], tail)
    cases tail with
    | nil =>
      show qContent [sq] = some ([], [])
      unfold qContent
      rw [if_pos rfl]
    | cons t ts =>
      rw [qContent_cons2]
      have h1 : (sq = sq && t = sq) = false := by
        simp [ht t rfl]
      rw [h1]
      simp
  | cons c d' ih =>
    intro tail ht
    by_cases hc : c = sq
    · subst hc
      show qContent ((sq :: sq :: doubleCh sq d') ++ sq :: tail) =
        some (sq :: sq :: doubleCh sq d', tail)
      rw [List.cons_append, List.cons_append, qContent_cons2,
        if_pos (by simp), ih tail ht]
      rfl
    · rw [doubleCh_cons_ne sq c d' hc, List.cons_append]
      cases hx : doubleCh sq d' ++ sq :: tail with
      | nil => exact absurd hx (by simp)
      | cons x xs =>
        rw [qContent_cons2]
        have h1 : (c = sq && x = sq) = false := by simp [hc]
        rw [h1, if_neg (by simp : ¬((false : Bool) = true)), if_neg hc, ← hx,
          ih tail ht]
        rfl

theorem fDefaultVal_word (d' tailC : Chars)
    (hd : ∀ c ∈ 'C' :: d', defaultChar c = true)
    (htail : tailC = [] ∨ tailC = [',']) :
    fDefaultVal (('C' :: d') ++ tailC) = some (String.mk ('C' :: d'), tailC) := by
  have hr : ∀ c, tailC.head? = some c → defaultChar c = false := by
    rcases htail with h | h <;> subst h
    · intro c hc; cases hc
    · intro c hc
      simp only [List.head?_cons, Option.some.injEq] at hc
      subst hc
      decide
  show fDefaultVal2 (('C' :: d') ++ tailC) = some (String.mk ('C' :: d'), tailC)
  unfold fDefaultVal2
  rw [show qChunk (('C' :: d') ++ tailC) = none from rfl]
  rw [takeWhile1_append defaultChar ('C' :: d') tailC (by simp) hd hr]
  rcases htail with h | h <;> subst h <;> rfl

theorem fDefaultVal_quoted (d tailC : Chars) (htail : tailC = [] ∨ tailC = [',']) :
    fDefaultVal ((sq :: doubleCh sq d ++ [sq]) ++ tailC) =
      some (String.mk (sq :: doubleCh sq d ++ [sq]), tailC) := by
  have ht : ∀ c, tailC.head? = some c → c ≠ sq := by
    rcases htail with h | h <;> subst h
    · intro c hc; cases hc
    · intro c hc
      simp only [List.head?_cons, Option.some.injEq] at hc
      subst hc
      decide
  have e : (sq :: doubleCh sq d ++ [sq]) ++ tailC =
      sq :: (doubleCh sq d ++ sq :: tailC) := by
    simp
  rw [e]
  show fDefaultVal2 (sq :: (doubleCh sq d ++ sq :: tailC)) = _
  unfold fDefaultVal2
  rw [show qChunk (sq :: (doubleCh sq d ++ sq :: tailC)) =
    (qContent (doubleCh sq d ++ sq :: tailC)).map (fun r => (sq :: r.1 ++ [sq], r.2))
    from rfl]
  rw [qContent_doubled d tailC ht]
  rfl

theorem colDefaultStage_df (nm ty : Chars) (nnv : Option String) (dfv : Chars)
    (cap : String) (tailC : Chars)
    (hdf : fDefaultVal (dfv ++ tailC) = some (cap, tailC))
    (h0 : ∃ c0 rest0, dfv = c0 :: rest0 ∧ ¬(c0 = ' '))
    (htail : tailC = [] ∨ tailC = [',']) :
    colDefaultStage nm ty none none none none none nnv
        (' ' :: ("DEFAULT ".toList ++ dfv ++ tailC)) =
      some { name := String.mk nm, coltype := String.mk ty, notnull := nnv,
             default := some cap } := by
  obtain ⟨c0, rest0, hdv, hc0⟩ := h0
  have hsp : sp1 (' ' :: (dfv ++ tailC)) = some (dfv ++ tailC) := by
    apply sp1_one
    intro c hc
    rw [hdv] at hc
    simp only [List.cons_append, List.head?_cons, Option.some.injEq] at hc
    rw [← hc]
    exact hc0
  have hfd : fDefault ("DEFAULT ".toList ++ dfv ++ tailC) = some (cap, tailC) := by
    show (match sp1 (' ' :: (dfv ++ tailC)) with
          | some r2 => fDefaultVal r2
          | none => none) = some (cap, tailC)
    rw [hsp]
    show fDefaultVal (dfv ++ tailC) = some (cap, tailC)
    exact hdf
  have hopt : optcl (' ' :: ("DEFAULT ".toList ++ dfv ++ tailC)) fDefault =
      (some cap, tailC) := by
    show (match fDefault ("DEFAULT ".toList ++ dfv ++ tailC) with
          | none => (none, ' ' :: ("DEFAULT ".toList ++ dfv ++ tailC))
          | some (a, r') => (some a, r')) = (some cap, tailC)
    rw [hfd]
  unfold colDefaultStage
  rw [hopt]
  rcases htail with h | h <;> subst h <;> rfl

theorem matchColumnTail_nodef (nm ty : Chars) (nnFlag : Bool) (tailC : Chars)
    (htail : tailC = [] ∨ tailC = [',']) :
    matchColumnTail nm ty ((if nnFlag then " NOT NULL".toList else []) ++ tailC) =
      some { name := String.mk nm, coltype := String.mk ty,
             notnull := if nnFlag then some "NOT NULL" else none } := by
  rcases htail with h | h <;> subst h <;> cases nnFlag <;> rfl

theorem matchColumnTail_nulldef (nm ty : Chars) (nnFlag : Bool) (tailC : Chars)
    (htail : tailC = [] ∨ tailC = [',']) :
    matchColumnTail nm ty ((if nnFlag then " NOT NULL".toList else []) ++
        (" DEFAULT NULL".toList ++ tailC)) =
      some { name := String.mk nm, coltype := String.mk ty,
             notnull := if nnFlag then some "NOT NULL" else none,
             default := some "NULL" } := by
  rcases htail with h | h <;> subst h <;> cases nnFlag <;> rfl

theorem matchColumnTail_worddef (nm ty d' tailC : Chars) (nnFlag : Bool)
    (hd : ∀ c ∈ 'C' :: d', defaultChar c = true)
    (htail : tailC = [] ∨ tailC = [',']) :
    matchColumnTail nm ty ((if nnFlag then " NOT NULL".toList else []) ++
        (" DEFAULT ".toList ++ ('C' :: d') ++ tailC)) =
      some { name := String.mk nm, coltype := String.mk ty,
             notnull := if nnFlag then some "NOT NULL" else none,
             default := some (String.mk ('C' :: d')) } := by
  cases nnFlag with
  | false =>
    show colDefaultStage nm ty none none none none none none
      (' ' :: ("DEFAULT ".toList ++ ('C' :: d') ++ tailC)) = _
    exact colDefaultStage_df nm ty none ('C' :: d') (String.mk ('C' :: d')) tailC
      (fDefaultVal_word d' tailC hd htail) ⟨'C', d', rfl, by decide⟩ htail
  | true =>
    show colDefaultStage nm ty none none none none none (some "NOT NULL")
      (' ' :: ("DEFAULT ".toList ++ ('C' :: d') ++ tailC)) = _
    exact colDefaultStage_df nm ty (some "NOT NULL") ('C' :: d')
      (String.mk ('C' :: d')) tailC
      (fDefaultVal_word d' tailC hd htail) ⟨'C', d', rfl, by decide⟩ htail

theorem matchColumnTail_quoteddef (nm ty d tailC : Chars) (nnFlag : Bool)
    (htail : tailC = [] ∨ tailC = [',']) :
    matchColumnTail nm ty ((if nnFlag then " NOT NULL".toList else []) ++
        (" DEFAULT ".toList ++ (sq :: doubleCh sq d ++ [sq]) ++ tailC)) =
      some { name := String.mk nm, coltype := String.mk ty,
             notnull := if nnFlag then some "NOT NULL" else none,
             default := some (String.mk (sq :: doubleCh sq d ++ [sq])) } := by
  cases nnFlag with
  | false =>
    show colDefaultStage nm ty none none none none none none
      (' ' :: ("DEFAULT ".toList ++ (sq :: doubleCh sq d ++ [sq]) ++ tailC)) = _
    exact colDefaultStage_df nm ty none (sq :: doubleCh sq d ++ [sq])
      (String.mk (sq :: doubleCh sq d ++ [sq])) tailC
      (fDefaultVal_quoted d tailC htail)
      ⟨sq, doubleCh sq d ++ [sq], rfl, by decide⟩ htail
  | true =>
    show colDefaultStage nm ty none none none none none (some "NOT NULL")
      (' ' :: ("DEFAULT ".toList ++ (sq :: doubleCh sq d ++ [sq]) ++ tailC)) = _
    exact colDefaultStage_df nm ty (some "NOT NULL") (sq :: doubleCh sq d ++ [sq])
      (String.mk (sq :: doubleCh sq d ++ [sq])) tailC
      (fDefaultVal_quoted d tailC htail)
      ⟨sq, doubleCh sq d ++ [sq], rfl, by decide⟩ htail

theorem describeRowLine_toList (r : DescribeRow) (hx : r.extra = "") :
    (describeRowLine mysqlPreparer r).toList =
      ' ' :: ' ' :: bq :: (doubleCh bq r.name.toList ++ bq :: ' ' ::
        (r.col_type.toList ++
          ((if r.nullable then [] else " NOT NULL".toList) ++ dfPartChars r))) := by
  by_cases h1 : r.default = ""
  · cases hb : r.nullable <;>
      simp_all [describeRowLine, dfPartChars, pyJoin, quoteIdentifier, mysqlPreparer,
        String.toList]
  · by_cases h2 : containsSeq "auto_increment".toList r.default.toList = true
    · cases hb : r.nullable <;>
        simp_all [describeRowLine, dfPartChars, pyJoin, quoteIdentifier, mysqlPreparer,
          String.toList]
    · by_cases h4 : r.default = "NULL"
      · cases hb : r.nullable <;>
          simp_all [describeRowLine, dfPartChars, pyJoin, quoteIdentifier, mysqlPreparer,
            String.toList]
      · by_cases h3a : hasPre "timestamp".toList r.col_type.toList = true
        · by_cases h3b : hasPre ['C'] r.default.toList = true
          · cases hb : r.nullable <;>
              simp_all [describeRowLine, dfPartChars, pyJoin, quoteIdentifier, mysqlPreparer,
                String.toList]
          · cases hb : r.nullable <;>
              simp_all [describeRowLine, dfPartChars, pyJoin, quoteIdentifier, mysqlPreparer,
                String.toList]
        · cases hb : r.nullable <;>
            simp_all [describeRowLine, dfPartChars, pyJoin, quoteIdentifier, mysqlPreparer,
              String.toList]

theorem doubleCh_of_not_mem (x : Char) :
    ∀ l : Chars, (∀ c ∈ l, c ≠ x) → doubleCh x l = l := by
  intro l
  induction l with
  | nil => intro _; rfl
  | cons c cs ih =>
    intro h
    rw [doubleCh_cons_ne x c cs (h c (List.mem_cons_self _ _)),
      ih (fun d hd => h d (List.mem_cons_of_mem _ hd))]

theorem matchColumnFull_head (nm ty suffix : Chars)
    (hnm0 : nm ≠ []) (hnm : ∀ c ∈ nm, c ≠ bq)
    (hty0 : ty ≠ []) (hty : ∀ c ∈ ty, isWordChar c = true)
    (hsuf : ∀ c, suffix.head? = some c → isWordChar c = false) :
    matchColumnFull mysqlPreparer
        (' ' :: ' ' :: bq :: (nm ++ bq :: ' ' :: (ty ++ suffix))) =
      matchColumnTail nm ty suffix := by
  have hident := identChars_clean nm hnm (' ' :: (ty ++ suffix)) rfl
  have hsp : sp1 (' ' :: (ty ++ suffix)) = some (ty ++ suffix) := by
    apply sp1_one
    intro c hc
    cases hty2 : ty with
    | nil => exact absurd hty2 hty0
    | cons t ts =>
      rw [hty2] at hc
      simp only [List.cons_append, List.head?_cons, Option.some.injEq] at hc
      intro he
      have hw : isWordChar t = true := hty t (by rw [hty2]; exact List.mem_cons_self _ _)
      rw [hc, he] at hw
      exact absurd hw (by decide)
  have htw1 := takeWhile1_append isWordChar ty suffix hty0 hty hsuf
  show (if (identChars bq [bq, bq] (nm ++ bq :: ' ' :: (ty ++ suffix))).1 = [] then none
        else
          match chLit bq (identChars bq [bq, bq] (nm ++ bq :: ' ' :: (ty ++ suffix))).2 with
          | none => none
          | some l4 =>
            match sp1 l4 with
            | none => none
            | some l5 =>
              match takeWhile1 isWordChar l5 with
              | none => none
              | some (ty2, l6) =>
                matchColumnTail (identChars bq [bq, bq] (nm ++ bq :: ' ' :: (ty ++ suffix))).1 ty2 l6)
      = matchColumnTail nm ty suffix
  rw [hident]
  rw [if_neg hnm0]
  show (match sp1 (' ' :: (ty ++ suffix)) with
        | none => none
        | some l5 =>
          match takeWhile1 isWordChar l5 with
          | none => none
          | some (ty2, l6) => matchColumnTail nm ty2 l6)
      = matchColumnTail nm ty suffix
  rw [hsp]
  show (match takeWhile1 isWordChar (ty ++ suffix) with
        | none => none
        | some (ty2, l6) => matchColumnTail nm ty2 l6)
      = matchColumnTail nm ty suffix
  rw [htw1]

theorem hasPre_single (c : Char) (l : Chars) (h : hasPre [c] l = true) :
    ∃ t, l = c :: t := by
  cases l with
  | nil => exact (Bool.false_ne_true h).elim
  | cons x xs =>
    have hx : (decide (c = x) && hasPre [] xs) = true := h
    simp only [Bool.and_eq_true, decide_eq_true_eq] at hx
    exact ⟨xs, by rw [hx.1]⟩

theorem dfPartChars_shape (r : DescribeRow) :
    dfPartChars r = [] ∨ ∃ t, dfPartChars r = ' ' :: t := by
  unfold dfPartChars
  by_cases h1 : r.default = ""
  · rw [if_pos h1]; exact Or.inl rfl
  · rw [if_neg h1]
    by_cases h2 : containsSeq "auto_increment".toList r.default.toList = true
    · rw [if_pos h2]; exact Or.inl rfl
    · rw [if_neg h2]
      by_cases h3 : (hasPre "timestamp".toList r.col_type.toList &&
          hasPre ['C'] r.default.toList) = true
      · rw [if_pos h3]; exact Or.inr ⟨"DEFAULT ".toList ++ r.default.toList, rfl⟩
      · rw [if_neg h3]
        by_cases h4 : r.default = "NULL"
        · rw [if_pos h4]; exact Or.inr ⟨"DEFAULT NULL".toList, rfl⟩
        · rw [if_neg h4]
          exact Or.inr ⟨"DEFAULT ".toList ++ (sq :: doubleCh sq r.default.toList ++ [sq]), rfl⟩

theorem toList_ne_nil (s : String) (h : s ≠ "") : s.toList ≠ [] := by
  intro he
  apply h
  have e : s = String.mk s.toList := rfl
  rw [e, he]

theorem matchColumnFull_describe (r : DescribeRow) (hr : simpleRow r)
    (tailC : Chars) (htail : tailC = [] ∨ tailC = [',']) :
    matchColumnFull mysqlPreparer ((describeRowLine mysqlPreparer r).toList ++ tailC) =
      some (expectedMatch r) := by
  obtain ⟨⟨hn0, hnc⟩, ⟨ht0, htw⟩, hdf, hx⟩ := hr
  have hn0' : r.name.toList ≠ [] := toList_ne_nil r.name hn0
  have ht0' : r.col_type.toList ≠ [] := toList_ne_nil r.col_type ht0
  have hnc' : ∀ c ∈ r.name.toList, c ≠ bq := fun c hc => (hnc c hc).1
  have htailh : ∀ c, tailC.head? = some c → isWordChar c = false := by
    rcases htail with h | h <;> subst h
    · intro c hc; cases hc
    · intro c hc
      simp only [List.head?_cons, Option.some.injEq] at hc
      rw [← hc]
      decide
  have hsuf : ∀ c,
      (((if r.nullable then [] else " NOT NULL".toList) ++
        (dfPartChars r ++ tailC)) : Chars).head? = some c → isWordChar c = false := by
    intro c hc
    cases hb : r.nullable <;> rw [hb] at hc
    · simp at hc
      subst hc
      decide
    · simp only [if_pos rfl, List.nil_append] at hc
      rcases dfPartChars_shape r with hdp | ⟨t, hdp⟩
      · rw [hdp, List.nil_append] at hc
        exact htailh c hc
      · rw [hdp] at hc
        simp at hc
        subst hc
        decide
  have hswap : (if r.nullable then ([] : Chars) else " NOT NULL".toList) =
      (if !r.nullable then " NOT NULL".toList else []) := by
    cases r.nullable <;> rfl
  rw [describeRowLine_toList r hx, doubleCh_of_not_mem bq r.name.toList hnc']
  simp only [List.cons_append, List.append_assoc]
  rw [matchColumnFull_head r.name.toList r.col_type.toList
    ((if r.nullable then [] else " NOT NULL".toList) ++ (dfPartChars r ++ tailC))
    hn0' hnc' ht0' htw hsuf]
  rcases hdf with h | h | h | hcase | hcase
  · -- absent default
    have hdfp : dfPartChars r = [] := by
      unfold dfPartChars
      rw [if_pos h]
    have hem : expectedMatch r =
        { name := r.name, coltype := r.col_type,
          notnull := if !r.nullable then some "NOT NULL" else none,
          default := none } := by
      unfold expectedMatch dfCapture
      rw [if_pos h]
      cases r.nullable <;> rfl
    rw [hdfp, List.nil_append, hswap,
      matchColumnTail_nodef r.name.toList r.col_type.toList (!r.nullable) tailC htail,
      hem]
    rfl
  · -- auto_increment default (omitted by the formatter)
    have hne : r.default ≠ "" := by
      intro he
      rw [he] at h
      exact absurd h (by decide)
    have hdfp : dfPartChars r = [] := by
      unfold dfPartChars
      rw [if_neg hne, if_pos h]
    have hem : expectedMatch r =
        { name := r.name, coltype := r.col_type,
          notnull := if !r.nullable then some "NOT NULL" else none,
          default := none } := by
      unfold expectedMatch dfCapture
      rw [if_neg hne, if_pos h]
      cases r.nullable <;> rfl
    rw [hdfp, List.nil_append, hswap,
      matchColumnTail_nodef r.name.toList r.col_type.toList (!r.nullable) tailC htail,
      hem]
    rfl
  · -- NULL default
    have hne : r.default ≠ "" := by rw [h]; decide
    have hna : containsSeq "auto_increment".toList r.default.toList = false := by
      rw [h]; decide
    have hts : ¬((hasPre "timestamp".toList r.col_type.toList &&
        hasPre ['C'] r.default.toList) = true) := by
      intro hc
      rw [Bool.and_eq_true] at hc
      have h2 := hc.2
      rw [h] at h2
      exact absurd h2 (by decide)
    have hdfp : dfPartChars r = " DEFAULT NULL".toList := by
      unfold dfPartChars
      rw [if_neg hne, if_neg (show ¬(containsSeq "auto_increment".toList r.default.toList = true)
        from by rw [hna]; decide), if_neg hts, if_pos h]
    have hem : expectedMatch r =
        { name := r.name, coltype := r.col_type,
          notnull := if !r.nullable then some "NOT NULL" else none,
          default := some "NULL" } := by
      unfold expectedMatch dfCapture
      rw [if_neg hne, if_neg (show ¬(containsSeq "auto_increment".toList r.default.toList = true)
        from by rw [hna]; decide), if_neg hts, if_pos h]
      cases r.nullable <;> rfl
    rw [hdfp, hswap,
      matchColumnTail_nulldef r.name.toList r.col_type.toList (!r.nullable) tailC htail,
      hem]
    rfl
  · -- unquoted function-call default (timestamp family)
    obtain ⟨hna, ⟨htsA, htsC⟩, hwd⟩ := hcase
    obtain ⟨d2, hd2⟩ := hasPre_single 'C' r.default.toList htsC
    have hne : r.default ≠ "" := by
      intro he
      rw [he] at hd2
      cases hd2
    have htsB : (hasPre "timestamp".toList r.col_type.toList &&
        hasPre ['C'] r.default.toList) = true := by
      rw [Bool.and_eq_true]
      exact ⟨htsA, htsC⟩
    have hdfp : dfPartChars r = " DEFAULT ".toList ++ r.default.toList := by
      unfold dfPartChars
      rw [if_neg hne, if_neg (show ¬(containsSeq "auto_increment".toList r.default.toList = true)
        from by rw [hna]; decide), if_pos htsB]
    have hem : expectedMatch r =
        { name := r.name, coltype := r.col_type,
          notnull := if !r.nullable then some "NOT NULL" else none,
          default := some r.default } := by
      unfold expectedMatch dfCapture
      rw [if_neg hne, if_neg (show ¬(containsSeq "auto_increment".toList r.default.toList = true)
        from by rw [hna]; decide), if_pos htsB]
      cases r.nullable <;> rfl
    have hwd' : ∀ c ∈ 'C' :: d2, defaultChar c = true := by
      rw [← hd2]
      exact hwd
    rw [hdfp, hd2, hswap,
      matchColumnTail_worddef r.name.toList r.col_type.toList d2 tailC (!r.nullable)
        hwd' htail,
      hem, ← hd2]
    rfl
  · -- any other text: quoted default
    obtain ⟨hne, hna, hnts, hnn, _⟩ := hcase
    have hts : ¬((hasPre "timestamp".toList r.col_type.toList &&
        hasPre ['C'] r.default.toList) = true) := by
      intro hc
      rw [Bool.and_eq_true] at hc
      exact hnts hc
    have hdfp : dfPartChars r =
        " DEFAULT ".toList ++ (sq :: doubleCh sq r.default.toList ++ [sq]) := by
      unfold dfPartChars
      rw [if_neg hne, if_neg (show ¬(containsSeq "auto_increment".toList r.default.toList = true)
        from by rw [hna]; decide), if_neg hts, if_neg hnn]
    have hem : expectedMatch r =
        { name := r.name, coltype := r.col_type,
          notnull := if !r.nullable then some "NOT NULL" else none,
          default := some (String.mk (sq :: doubleCh sq r.default.toList ++ [sq])) } := by
      unfold expectedMatch dfCapture
      rw [if_neg hne, if_neg (show ¬(containsSeq "auto_increment".toList r.default.toList = true)
        from by rw [hna]; decide), if_neg hts, if_neg hnn]
      cases r.nullable <;> rfl
    rw [hdfp, hswap,
      matchColumnTail_quoteddef r.name.toList r.col_type.toList r.default.toList tailC
        (!r.nullable) htail,
      hem]
    rfl

theorem processLine_describe (reg : Registry) (dn : String) (s : ReflectedState)
    (r : DescribeRow) (line : String) (hr : simpleRow r)
    (hline : line = describeRowLine mysqlPreparer r ∨
      line = describeRowLine mysqlPreparer r ++ ",") :
    processLine mysqlPreparer reg dn s line = buildColumn reg (expectedMatch r) s := by
  have htl0 := describeRowLine_toList r hr.2.2.2
  have hlist : ∃ tailC, (tailC = [] ∨ tailC = [',']) ∧
      line.toList = (describeRowLine mysqlPreparer r).toList ++ tailC := by
    rcases hline with h | h <;> subst h
    · exact ⟨[], Or.inl rfl, by simp⟩
    · exact ⟨[','], Or.inr rfl, rfl⟩
  obtain ⟨tailC, htail, hlt⟩ := hlist
  have hpre : hasPre ("  ".toList ++ [mysqlPreparer.initial_quote]) line.toList = true := by
    rw [hlt, htl0]
    rfl
  have hm : matchColumnFull mysqlPreparer line.toList = some (expectedMatch r) := by
    rw [hlt]
    exact matchColumnFull_describe r hr tailC htail
  unfold processLine
  rw [if_pos hpre]
  unfold _parse_column
  rw [hm]

theorem parse_table_name_columns (P : Preparer) (line : String) (s : ReflectedState) :
    (_parse_table_name P line s).columns = s.columns := by
  unfold _parse_table_name
  cases matchTableName P line.toList <;> rfl

theorem parse_table_options_columns (dn line : String) (s : ReflectedState) :
    (_parse_table_options dn line s).columns = s.columns := rfl

theorem processLine_notcol_columns (reg : Registry) (dn : String) (s : ReflectedState)
    (line : String)
    (h : hasPre ("  ".toList ++ [mysqlPreparer.initial_quote]) line.toList = false) :
    ∃ t, processLine mysqlPreparer reg dn s line = some t ∧ t.columns = s.columns := by
  unfold processLine
  rw [if_neg (show ¬(hasPre ("  ".toList ++ [mysqlPreparer.initial_quote]) line.toList = true)
    from by intro hc; rw [h] at hc; cases hc)]
  by_cases h2 : hasPre ") ".toList line.toList = true
  · rw [if_pos h2]
    exact ⟨_, rfl, parse_table_options_columns dn line s⟩
  · rw [if_neg h2]
    by_cases h3 : line = ")"
    · rw [if_pos h3]
      exact ⟨s, rfl, rfl⟩
    · rw [if_neg h3]
      by_cases h4 : hasPre "CREATE ".toList line.toList = true
      · rw [if_pos h4]
        exact ⟨_, rfl, parse_table_name_columns mysqlPreparer line s⟩
      · rw [if_neg h4]
        by_cases h5 : line = ""
        · rw [if_pos h5]
          exact ⟨s, rfl, rfl⟩
        · rw [if_neg h5]
          cases _parse_constraints mysqlPreparer line with
          | unknown ln => exact ⟨_, rfl, rfl⟩
          | key k => exact ⟨_, rfl, rfl⟩
          | fk k => exact ⟨_, rfl, rfl⟩
          | ck k => exact ⟨_, rfl, rfl⟩
          | partitionLine ln => exact ⟨s, rfl, rfl⟩

theorem splitChars_cons2 (c c' : Char) (cs : Chars) :
    splitChars (c :: c' :: cs) =
      if c = '\n' then [] :: splitChars (c' :: cs)
      else if c = '\r' && c' = '\n' then [] :: splitChars cs
      else match splitChars (c' :: cs) with
        | l :: ls => (c :: l) :: ls
        | [] => [[c]] := rfl

theorem splitChars_clean :
    ∀ a : Chars, (∀ c ∈ a, c ≠ '\n' ∧ c ≠ '\r') → splitChars a = [a] := by
  intro a
  induction a with
  | nil => intro _; rfl
  | cons c cs ih =>
    intro h
    have hc := h c (List.mem_cons_self _ _)
    cases cs with
    | nil =>
      show (if c = '\n' then [[], []] else [[c]]) = [[c]]
      rw [if_neg hc.1]
    | cons c2 cs2 =>
      rw [splitChars_cons2, if_neg hc.1,
        if_neg (by simp [hc.2] : ¬((c = '\r' && c2 = '\n') = true)),
        ih (fun x hx => h x (List.mem_cons_of_mem _ hx))]

theorem splitChars_append :
    ∀ a : Chars, (∀ c ∈ a, c ≠ '\n' ∧ c ≠ '\r') → ∀ rest : Chars,
      splitChars (a ++ '\n' :: rest) = a :: splitChars rest := by
  intro a
  induction a with
  | nil =>
    intro _ rest
    cases rest with
    | nil => rfl
    | cons y ys => rw [List.nil_append, splitChars_cons2, if_pos rfl]
  | cons c a2 ih =>
    intro h rest
    have hc := h c (List.mem_cons_self _ _)
    rw [List.cons_append]
    cases hx : a2 ++ '\n' :: rest with
    | nil => exact absurd hx (by simp)
    | cons y ys =>
      rw [splitChars_cons2, if_neg hc.1,
        if_neg (by simp [hc.2] : ¬((c = '\r' && y = '\n') = true)),
        ← hx, ih (fun x hxm => h x (List.mem_cons_of_mem _ hxm)) rest]

theorem toList_app (a b : String) : (a ++ b).toList = a.toList ++ b.toList := rfl

theorem mk_toList (s : String) : String.mk s.toList = s := rfl

theorem clean_char_of_word (c : Char) (h : isWordChar c = true) :
    c ≠ '\n' ∧ c ≠ '\r' := by
  constructor <;> intro he <;> rw [he] at h <;> exact absurd h (by decide)

theorem clean_char_of_default (c : Char) (h : defaultChar c = true) :
    c ≠ '\n' ∧ c ≠ '\r' := by
  constructor <;> intro he <;> rw [he] at h <;> exact absurd h (by decide)

theorem mem_doubleCh (x : Char) :
    ∀ l c, c ∈ doubleCh x l → c ∈ l := by
  intro l
  induction l with
  | nil => intro c hc; exact absurd hc (by simp [doubleCh])
  | cons y ys ih =>
    intro c hc
    have e : doubleCh x (y :: ys) =
        if y = x then y :: y :: doubleCh x ys else y :: doubleCh x ys := rfl
    by_cases hy : y = x
    · rw [e, if_pos hy] at hc
      rcases List.mem_cons.mp hc with rfl | hc2
      · exact List.mem_cons_self _ _
      · rcases List.mem_cons.mp hc2 with rfl | hc3
        · exact List.mem_cons_self _ _
        · exact List.mem_cons_of_mem _ (ih c hc3)
    · rw [e, if_neg hy] at hc
      rcases List.mem_cons.mp hc with rfl | hc2
      · exact List.mem_cons_self _ _
      · exact List.mem_cons_of_mem _ (ih c hc2)

theorem dfPartChars_clean (r : DescribeRow) (hdf : simpleDefault r) :
    ∀ c ∈ dfPartChars r, c ≠ '\n' ∧ c ≠ '\r' := by
  rcases hdf with h | h | h | hcase | hcase
  · rw [show dfPartChars r = [] from by unfold dfPartChars; rw [if_pos h]]
    intro c hc
    exact absurd hc (by simp)
  · have hne : r.default ≠ "" := by
      intro he
      rw [he] at h
      exact absurd h (by decide)
    rw [show dfPartChars r = [] from by unfold dfPartChars; rw [if_neg hne, if_pos h]]
    intro c hc
    exact absurd hc (by simp)
  · have hne : r.default ≠ "" := by rw [h]; decide
    have hna : containsSeq "auto_increment".toList r.default.toList = false := by
      rw [h]; decide
    have hts : ¬((hasPre "timestamp".toList r.col_type.toList &&
        hasPre ['C'] r.default.toList) = true) := by
      intro hc
      rw [Bool.and_eq_true] at hc
      have h2 := hc.2
      rw [h] at h2
      exact absurd h2 (by decide)
    rw [show dfPartChars r = " DEFAULT NULL".toList from by
      unfold dfPartChars
      rw [if_neg hne, if_neg (show ¬(containsSeq "auto_increment".toList r.default.toList = true)
        from by rw [hna]; decide), if_neg hts, if_pos h]]
    decide
  · obtain ⟨hna, ⟨htsA, htsC⟩, hwd⟩ := hcase
    obtain ⟨d2, hd2⟩ := hasPre_single 'C' r.default.toList htsC
    have hne : r.default ≠ "" := by
      intro he
      rw [he] at hd2
      cases hd2
    have htsB : (hasPre "timestamp".toList r.col_type.toList &&
        hasPre ['C'] r.default.toList) = true := by
      rw [Bool.and_eq_true]
      exact ⟨htsA, htsC⟩
    rw [show dfPartChars r = " DEFAULT ".toList ++ r.default.toList from by
      unfold dfPartChars
      rw [if_neg hne, if_neg (show ¬(containsSeq "auto_increment".toList r.default.toList = true)
        from by rw [hna]; decide), if_pos htsB]]
    intro c hc
    rcases List.mem_append.mp hc with hc | hc
    · exact (by decide : ∀ x ∈ " DEFAULT ".toList, x ≠ '\n' ∧ x ≠ '\r') c hc
    · exact clean_char_of_default c (hwd c hc)
  · obtain ⟨hne, hna, hnts, hnn, hcl⟩ := hcase
    have hts : ¬((hasPre "timestamp".toList r.col_type.toList &&
        hasPre ['C'] r.default.toList) = true) := by
      intro hc
      rw [Bool.and_eq_true] at hc
      exact hnts hc
    rw [show dfPartChars r =
        " DEFAULT ".toList ++ (sq :: doubleCh sq r.default.toList ++ [sq]) from by
      unfold dfPartChars
      rw [if_neg hne, if_neg (show ¬(containsSeq "auto_increment".toList r.default.toList = true)
        from by rw [hna]; decide), if_neg hts, if_neg hnn]]
    intro c hc
    rcases List.mem_append.mp hc with hc | hc
    · exact (by decide : ∀ x ∈ " DEFAULT ".toList, x ≠ '\n' ∧ x ≠ '\r') c hc
    · rcases List.mem_cons.mp hc with rfl | hc2
      · decide
      · rcases List.mem_append.mp hc2 with hc3 | hc3
        · exact hcl c (mem_doubleCh sq r.default.toList c hc3)
        · rcases List.mem_cons.mp hc3 with rfl | hc4
          · decide
          · exact absurd hc4 (by simp)

theorem describeRowLine_clean (r : DescribeRow) (hr : simpleRow r) :
    ∀ c ∈ (describeRowLine mysqlPreparer r).toList, c ≠ '\n' ∧ c ≠ '\r' := by
  obtain ⟨⟨hn0, hnc⟩, ⟨ht0, htw⟩, hdf, hx⟩ := hr
  rw [describeRowLine_toList r hx]
  intro c hc
  rcases List.mem_cons.mp hc with rfl | hc
  · decide
  rcases List.mem_cons.mp hc with rfl | hc
  · decide
  rcases List.mem_cons.mp hc with rfl | hc
  · decide
  rcases List.mem_append.mp hc with hc | hc
  · have hm := mem_doubleCh bq r.name.toList c hc
    exact ⟨(hnc c hm).2.1, (hnc c hm).2.2⟩
  rcases List.mem_cons.mp hc with rfl | hc
  · decide
  rcases List.mem_cons.mp hc with rfl | hc
  · decide
  rcases List.mem_append.mp hc with hc | hc
  · exact clean_char_of_word c (htw c hc)
  rcases List.mem_append.mp hc with hc | hc
  · cases hb : r.nullable <;> rw [hb] at hc
    · exact (by decide : ∀ x ∈ " NOT NULL".toList, x ≠ '\n' ∧ x ≠ '\r') c hc
    · exact absurd hc (by simp)
  · exact dfPartChars_clean r hdf c hc

theorem splitChars_body :
    ∀ rows : List DescribeRow, (∀ r ∈ rows, simpleRow r) →
      splitChars ((pyJoin ",\n" (rows.map (describeRowLine mysqlPreparer))).toList ++
          '\n' :: [')', ' ']) =
        (bodyLines mysqlPreparer rows).map String.toList ++ [[')', ' ']] := by
  intro rows
  induction rows with
  | nil =>
    intro _
    rfl
  | cons r rest ih =>
    intro h
    cases rest with
    | nil =>
      show splitChars ((describeRowLine mysqlPreparer r).toList ++ '\n' :: [')', ' ']) =
        [(describeRowLine mysqlPreparer r).toList, [')', ' ']]
      rw [splitChars_append _ (describeRowLine_clean r (h r (List.mem_cons_self _ _))) _,
        splitChars_clean [')', ' '] (by decide)]
    | cons r2 rest2 =>
      have hclean : ∀ c ∈ (describeRowLine mysqlPreparer r).toList ++ [','],
          c ≠ '\n' ∧ c ≠ '\r' := by
        intro c hc
        rcases List.mem_append.mp hc with hc | hc
        · exact describeRowLine_clean r (h r (List.mem_cons_self _ _)) c hc
        · rcases List.mem_cons.mp hc with rfl | hc2
          · decide
          · exact absurd hc2 (by simp)
      have e : (pyJoin ",\n" ((r :: r2 :: rest2).map (describeRowLine mysqlPreparer))).toList ++
          '\n' :: [')', ' '] =
          ((describeRowLine mysqlPreparer r).toList ++ [',']) ++ '\n' ::
            ((pyJoin ",\n" ((r2 :: rest2).map (describeRowLine mysqlPreparer))).toList ++
              '\n' :: [')', ' ']) := by
        show ((describeRowLine mysqlPreparer r ++ ",\n" ++
            pyJoin ",\n" ((r2 :: rest2).map (describeRowLine mysqlPreparer))).toList) ++
            '\n' :: [')', ' '] = _
        rw [toList_app, toList_app]
        simp [List.append_assoc]
      rw [e, splitChars_append _ hclean _,
        ih (fun x hx => h x (List.mem_cons_of_mem _ hx))]
      rfl

theorem splitLines_describe (tn : String) (rows : List DescribeRow)
    (htn : cleanStr tn) (hrows : ∀ r ∈ rows, simpleRow r) :
    splitLines (_describe_to_create mysqlPreparer tn rows) =
      ("CREATE TABLE " ++ quoteIdentifier mysqlPreparer tn ++ " (") ::
        (bodyLines mysqlPreparer rows ++ [") "]) := by
  have hhdr : ∀ c ∈ ("CREATE TABLE " ++ quoteIdentifier mysqlPreparer tn ++ " (").toList,
      c ≠ '\n' ∧ c ≠ '\r' := by
    intro c hc
    have e : ("CREATE TABLE " ++ quoteIdentifier mysqlPreparer tn ++ " (").toList =
        ("CREATE TABLE ".toList ++ (([bq] ++ doubleCh bq tn.toList) ++ [bq])) ++
          [' ', '('] := rfl
    rw [e] at hc
    rcases List.mem_append.mp hc with hc | hc
    · rcases List.mem_append.mp hc with hc | hc
      · exact (by decide : ∀ x ∈ "CREATE TABLE ".toList, x ≠ '\n' ∧ x ≠ '\r') c hc
      · rcases List.mem_append.mp hc with hc | hc
        · rcases List.mem_append.mp hc with hc | hc
          · exact (by decide : ∀ x ∈ [bq], x ≠ '\n' ∧ x ≠ '\r') c hc
          · exact htn c (mem_doubleCh bq tn.toList c hc)
        · exact (by decide : ∀ x ∈ [bq], x ≠ '\n' ∧ x ≠ '\r') c hc
    · exact (by decide : ∀ x ∈ [' ', '('], x ≠ '\n' ∧ x ≠ '\r') c hc
  have e2 : ("CREATE TABLE " ++ quoteIdentifier mysqlPreparer tn ++ " (\n" ++
      pyJoin ",\n" (rows.map (describeRowLine mysqlPreparer)) ++ "\n) ").toList =
      ("CREATE TABLE " ++ quoteIdentifier mysqlPreparer tn ++ " (").toList ++
        '\n' :: ((pyJoin ",\n" (rows.map (describeRowLine mysqlPreparer))).toList ++
          '\n' :: [')', ' ']) := by
    simp only [toList_app, List.append_assoc]
    rfl
  show ((splitChars ("CREATE TABLE " ++ quoteIdentifier mysqlPreparer tn ++ " (\n" ++
      pyJoin ",\n" (rows.map (describeRowLine mysqlPreparer)) ++ "\n) ").toList).map
        String.mk) = _
  rw [e2, splitChars_append _ hhdr _, splitChars_body rows hrows]
  simp only [List.map_cons, List.map_append, List.map_map]
  rw [mk_toList]
  have e3 : (bodyLines mysqlPreparer rows).map (String.mk ∘ String.toList) =
      bodyLines mysqlPreparer rows := by
    have e4 : ∀ ls : List String, ls.map (String.mk ∘ String.toList) = ls := by
      intro ls
      induction ls with
      | nil => rfl
      | cons a as iha =>
        show String.mk a.toList :: as.map (String.mk ∘ String.toList) = a :: as
        rw [mk_toList, iha]
    exact e4 _
  rw [e3]
  rfl

theorem processLine_empty (reg : Registry) (dn : String) (s : ReflectedState) :
    processLine mysqlPreparer reg dn s "" = some s := rfl

theorem buildCol_expected (reg : Registry) (r : DescribeRow) :
    ∃ col, buildCol reg (expectedMatch r) = some col ∧
      col.name = r.name ∧
      col.type.desc = resolveType reg r.col_type ∧
      col.nullable =
        !((if r.nullable then none else some "NOT NULL") == some "NOT NULL") := by
  have hfsp : fspSplit (resolveType reg (expectedMatch r).coltype) [] = (none, []) := by
    unfold fspSplit
    cases (resolveType reg (expectedMatch r).coltype).isDatetimeFsp <;> rfl
  have h2 : (fspSplit (resolveType reg (expectedMatch r).coltype) []).2 = [] := by
    rw [hfsp]
  have hes : enumSetSplit (resolveType reg (expectedMatch r).coltype) [] =
      some ([], false) := by
    unfold enumSetSplit
    cases ((resolveType reg (expectedMatch r).coltype).isEnum ||
        (resolveType reg (expectedMatch r).coltype).isSet) <;>
      simp [stripTypeArgs]
  have hb : (buildCol reg (expectedMatch r)).isSome = true := by
    simp only [buildCol]
    rw [show parseTypeArgs (expectedMatch r).arg = [] from rfl, h2, hes]
    rfl
  obtain ⟨col, hcol⟩ := Option.isSome_iff_exists.mp hb
  obtain ⟨hname, hnul, _, hdesc, _, _⟩ := buildCol_fields reg (expectedMatch r) col hcol
  exact ⟨col, hcol, hname, hdesc, hnul⟩

theorem foldl_bodyLines_cons (reg : Registry) (dn : String) :
    ∀ (rest : List DescribeRow) (r0 : DescribeRow) (s : ReflectedState),
      (∀ r ∈ r0 :: rest, simpleRow r) →
      ∃ out cols,
        List.foldl (stepLine mysqlPreparer reg dn) (some s)
          (bodyLines mysqlPreparer (r0 :: rest)) = some out ∧
        out.columns = s.columns ++ cols ∧
        List.Forall₂ (fun c r => buildCol reg (expectedMatch r) = some c)
          cols (r0 :: rest) := by
  intro rest
  induction rest with
  | nil =>
    intro r0 s h
    obtain ⟨col, hcol, _, _, _⟩ := buildCol_expected reg r0
    have hstep : List.foldl (stepLine mysqlPreparer reg dn) (some s)
        (bodyLines mysqlPreparer [r0]) =
        some ({ s with
                warnings := s.warnings ++ buildColWarn reg (expectedMatch r0),
                columns := s.columns ++ [col] }) := by
      show List.foldl (stepLine mysqlPreparer reg dn) (some s)
        [describeRowLine mysqlPreparer r0] = _
      rw [List.foldl_cons, List.foldl_nil]
      show processLine mysqlPreparer reg dn s (describeRowLine mysqlPreparer r0) = _
      rw [processLine_describe reg dn s r0 _ (h r0 (List.mem_cons_self _ _)) (Or.inl rfl),
        buildColumn_columns reg (expectedMatch r0) s col hcol]
    exact ⟨_, [col], hstep, rfl, List.Forall₂.cons hcol List.Forall₂.nil⟩
  | cons r1 rest2 ih =>
    intro r0 s h
    obtain ⟨col, hcol, _, _, _⟩ := buildCol_expected reg r0
    obtain ⟨out, cols, hout, hcols, hf⟩ := ih r1
      ({ s with
         warnings := s.warnings ++ buildColWarn reg (expectedMatch r0),
         columns := s.columns ++ [col] })
      (fun x hx => h x (List.mem_cons_of_mem _ hx))
    refine ⟨out, col :: cols, ?_, ?_, List.Forall₂.cons hcol hf⟩
    · show List.foldl (stepLine mysqlPreparer reg dn) (some s)
        ((describeRowLine mysqlPreparer r0 ++ ",") ::
          bodyLines mysqlPreparer (r1 :: rest2)) = some out
      rw [foldl_stepLine_cons,
        processLine_describe reg dn s r0 _ (h r0 (List.mem_cons_self _ _)) (Or.inr rfl),
        buildColumn_columns reg (expectedMatch r0) s col hcol]
      exact hout
    · rw [hcols]
      show (s.columns ++ [col]) ++ cols = s.columns ++ col :: cols
      simp

theorem forall2_buildCol (reg : Registry) :
    ∀ (rows : List DescribeRow) (cols : List ColumnSpec),
      (∀ r ∈ rows, (reg.ischema_names r.col_type).isSome = true) →
      List.Forall₂ (fun c r => buildCol reg (expectedMatch r) = some c) cols rows →
      List.Forall₂
        (fun c r => c.name = r.name ∧ some c.type.desc = reg.ischema_names r.col_type ∧
          c.nullable = r.nullable)
        cols rows := by
  intro rows
  induction rows with
  | nil =>
    intro cols _ hf
    cases hf
    exact List.Forall₂.nil
  | cons r rest ih =>
    intro cols hreg hf
    cases hf with
    | cons hcr htail =>
      rename_i c cs
      refine List.Forall₂.cons ?_
        (ih cs (fun x hx => hreg x (List.mem_cons_of_mem _ hx)) htail)
      obtain ⟨hname, hnul, _, hdesc, _, _⟩ := buildCol_fields reg (expectedMatch r) c hcr
      refine ⟨hname, ?_, ?_⟩
      · obtain ⟨d, hd⟩ := Option.isSome_iff_exists.mp (hreg r (List.mem_cons_self _ _))
        rw [hdesc]
        show some (resolveType reg r.col_type) = reg.ischema_names r.col_type
        unfold resolveType
        rw [hd]
        rfl
      · rw [hnul]
        show (!((if r.nullable then none else some "NOT NULL") == some "NOT NULL")) =
          r.nullable
        cases r.nullable <;> rfl

/-- **C1.** Round trip.  For a simple column listing (well-formed
identifier names, bare word type keywords, defaults among the shapes the
formatter distinguishes, empty extra, resolvable type keywords), feeding
`_describe_to_create`'s output to `parse` succeeds and yields a state
whose columns reproduce, row by row, the same name, the type instance
registered for the same type keyword, and the same nullability. -/
theorem c1_roundtrip (reg : Registry) (tn : String) (rows : List DescribeRow)
    (cs : Option String) (htn : cleanStr tn)
    (hrows : ∀ r ∈ rows, simpleRow r ∧ (reg.ischema_names r.col_type).isSome = true) :
    ∃ st, parse mysqlPreparer reg "mysql"
        (_describe_to_create mysqlPreparer tn rows) cs = some st ∧
      List.Forall₂
        (fun c r => c.name = r.name ∧ some c.type.desc = reg.ischema_names r.col_type ∧
          c.nullable = r.nullable)
        st.columns rows := by
  have hsimple : ∀ r ∈ rows, simpleRow r := fun r hr => (hrows r hr).1
  obtain ⟨s1, hs1, hs1c⟩ := processLine_notcol_columns reg "mysql" { charset := cs }
    ("CREATE TABLE " ++ quoteIdentifier mysqlPreparer tn ++ " (") rfl
  cases rows with
  | nil =>
    obtain ⟨s3, hs3, hs3c⟩ := processLine_notcol_columns reg "mysql" s1 ") " (by decide)
    refine ⟨s3, ?_, ?_⟩
    · unfold parse parseLines
      rw [splitLines_describe tn [] htn hsimple, foldl_stepLine_cons, hs1]
      show List.foldl (stepLine mysqlPreparer reg "mysql") (some s1) ["", ") "] =
        some s3
      rw [foldl_stepLine_cons, processLine_empty, foldl_stepLine_cons, List.foldl_nil]
      show processLine mysqlPreparer reg "mysql" s1 ") " = some s3
      exact hs3
    · rw [hs3c, hs1c]
      exact List.Forall₂.nil
  | cons r0 rest =>
    obtain ⟨out, cols, hout, hcols, hf⟩ :=
      foldl_bodyLines_cons reg "mysql" rest r0 s1 hsimple
    obtain ⟨s3, hs3, hs3c⟩ := processLine_notcol_columns reg "mysql" out ") " (by decide)
    refine ⟨s3, ?_, ?_⟩
    · unfold parse parseLines
      rw [splitLines_describe tn (r0 :: rest) htn hsimple, foldl_stepLine_cons,
        hs1, List.foldl_append, hout, foldl_stepLine_cons, List.foldl_nil]
      show processLine mysqlPreparer reg "mysql" out ") " = some s3
      exact hs3
    · rw [hs3c, hcols, hs1c]
      exact forall2_buildCol reg (r0 :: rest) cols (fun x hx => (hrows x hx).2) hf

/-- Witness for C1: a concrete two-row listing (an INT NOT NULL and a
nullable TEXT with NULL default) round-trips through the formatter and
the parser. -/
theorem c1_roundtrip_witness :
    cleanStr "users" ∧
    (∀ r ∈ ([{ name := "id", col_type := "int", nullable := false,
               default := "", extra := "" },
             { name := "note", col_type := "text", nullable := true,
               default := "NULL", extra := "" }] : List DescribeRow),
        simpleRow r ∧ (sampleRegistry.ischema_names r.col_type).isSome = true) ∧
    (∃ st, parse mysqlPreparer sampleRegistry "mysql"
        (_describe_to_create mysqlPreparer "users"
          ([{ name := "id", col_type := "int", nullable := false,
              default := "", extra := "" },
            { name := "note", col_type := "text", nullable := true,
              default := "NULL", extra := "" }] : List DescribeRow)) none = some st ∧
      List.Forall₂
        (fun (c : ColumnSpec) (r : DescribeRow) => c.name = r.name ∧
          some c.type.desc = sampleRegistry.ischema_names r.col_type ∧
          c.nullable = r.nullable)
        st.columns
        ([{ name := "id", col_type := "int", nullable := false,
            default := "", extra := "" },
          { name := "note", col_type := "text", nullable := true,
            default := "NULL", extra := "" }] : List DescribeRow)) :=
  ⟨by unfold cleanStr; decide,
   by
    unfold simpleRow simpleName simpleType simpleDefault tsUnquoted cleanStr
    decide,
   c1_roundtrip sampleRegistry "users"
      ([{ name := "id", col_type := "int", nullable := false,
          default := "", extra := "" },
        { name := "note", col_type := "text", nullable := true,
          default := "NULL", extra := "" }] : List DescribeRow) none
      (by unfold cleanStr; decide)
      (by
        unfold simpleRow simpleName simpleType simpleDefault tsUnquoted cleanStr
        decide)⟩

end Claims

end MySQLRefl
